import Mathlib

/-!
Verification development for the raw-data processing pipeline in
src/data_manipulation/raw_data_processing.py.

The pipeline works on pandas DataFrames indexed by timestamp strings of the
form hh:mm:ss:cc (hour unpadded, the last field counting 10 ms units).  We
embed it shallowly:

* timestamp strings are Lean Strings; Python str.split(':') and int() are
  modelled by structural recursion on the character list;
* a DataFrame is a list of (label, row) pairs in index order; pandas
  `.at[label, col] = v` is modelled by update-if-present / append-if-absent
  (pandas .at enlarges the index with a fresh trailing row when the label is
  missing);
* numeric cells are `Option S` over a field `S` (None models NaN);
  `np.sqrt` is an abstract function parameter, instantiated with `Real.sqrt`
  when cell values matter;
* `DataFrame.interpolate(method='linear')` (default limit_direction =
  'forward') is modelled column-wise: cells before the first defined cell
  stay undefined, interior gaps are linearly interpolated on positions, and
  cells after the last defined cell are filled with the last defined value.
-/

namespace RawData

/-- Character of a single decimal digit d (0-9), as produced by Python str(). -/
def digitChar (d : ℕ) : Char := Char.ofNat (48 + d)

/-- Fuel-based decimal expansion of a natural number, most significant digit
first, prepended to acc.  Models Python str(int) (and the digits of an 02d
format). -/
def natDigitsAux : ℕ → ℕ → List Char → List Char
  | 0, _, acc => acc
  | fuel+1, n, acc =>
    if n < 10 then digitChar n :: acc
    else natDigitsAux fuel (n / 10) (digitChar (n % 10) :: acc)

/-- Decimal representation of a natural number (Python str(n)). -/
def natRepr (n : ℕ) : List Char := natDigitsAux (n + 1) n []

/-- Python format f-string 02d: zero-pad to two digits. -/
def pad2 (n : ℕ) : List Char := if n < 10 then '0' :: natRepr n else natRepr n

/-- Accumulating decimal parser on characters; fails on a non-digit.
Models Python int() on the digit strings appearing in timestamps. -/
def parseNatAux : List Char → ℕ → Option ℕ
  | [], acc => some acc
  | c :: cs, acc =>
    if c.isDigit then parseNatAux cs (acc * 10 + (c.toNat - 48)) else none

/-- Python int() on a (non-empty, all-digit) string. -/
def parseNat? (cs : List Char) : Option ℕ :=
  if cs.isEmpty then none else parseNatAux cs 0

/-- Python str.split(':') on a character list (keeps empty fields, as Python
does). -/
def splitCols : List Char → List (List Char)
  | [] => [[]]
  | c :: cs =>
    if c = ':' then [] :: splitCols cs
    else
      match splitCols cs with
      | [] => [[c]]
      | w :: ws => (c :: w) :: ws

/-- Parse a raw timestamp string exactly as raw_data_processing.py does
(lines 31-41): split on ':' into exactly four fields, convert each with
int(), and combine as h*60*60*1000 + m*60*1000 + s*1000 + c*10 (the last
field counts 10 ms units).  None models the ValueError / unpacking error
Python raises on malformed input. -/
def parseTs? (s : String) : Option ℕ :=
  match splitCols s.data with
  | [h, m, sec, c] => do
    let hv ← parseNat? h
    let mv ← parseNat? m
    let sv ← parseNat? sec
    let cv ← parseNat? c
    some (hv * 60 * 60 * 1000 + mv * 60 * 1000 + sv * 1000 + cv * 10)
  | _ => none

/-- Parsed millisecond value of a timestamp (0 when malformed); used to state
properties about parsed values. -/
def parseVal (s : String) : ℕ := (parseTs? s).getD 0

/-- Reformat a millisecond count as the pipeline does (lines 51-56):
hour unpadded via str(), minute / second / 10ms-unit fields the exact
expressions of the source, each 02d-padded. -/
def formatTs (curr : ℕ) : String :=
  ⟨natRepr (curr / 3600000) ++ ':' ::
     (pad2 (curr % 3600000 / 60000) ++ ':' ::
       (pad2 (curr % 3600000 % 60000 / 1000) ++ ':' ::
         pad2 (curr % 3600000 % 60000 % 1000 / 10)))⟩

/-- Order-preserving deduplication with an explicit seen-accumulator; models
Python list(dict.fromkeys(xs)) (keeps the first occurrence of each value, in
first-occurrence order). -/
def dedupAux : List String → List String → List String
  | [], _ => []
  | x :: xs, seen =>
    if x ∈ seen then dedupAux xs seen else x :: dedupAux xs (x :: seen)

/-- Python list(dict.fromkeys(xs)). -/
def dedupKeepFirst (xs : List String) : List String := dedupAux xs []

/-- calculate_ms_interval (lines 18-57): parse the first and last timestamp,
floor-divide the millisecond difference by 10 (Python //), and emit one
reformatted timestamp per 10 ms step.  Python range(n) is empty for n <= 0,
which Int.toNat's clamping reproduces; Python // on a possibly negative
difference is Int.fdiv.  None models the exceptions Python raises on an
empty list or malformed timestamps. -/
def calculate_ms_interval (times_list : List String) : Option (List String) := do
  let first ← times_list.head?
  let last ← times_list.getLast?
  let time_init ← parseTs? first
  let time_end ← parseTs? last
  let milisec_range : ℤ := (time_end : ℤ) - (time_init : ℤ)
  let ms_range_with_interval : ℤ := milisec_range.fdiv 10
  some <| (List.range (ms_range_with_interval + 1).toNat).map
    (fun ms => formatTs (time_init + ms * 10))

/-- A timestamp string is canonical when it is the formatter's rendering of
its own parsed value (unpadded hour, two-digit zero-padded minute, second
and 10ms-unit fields, fields in range). -/
def canonicalB (t : String) : Bool :=
  match parseTs? t with
  | some v => t == formatTs v
  | none => false

/-! ### Tables, pandas-style linear interpolation, and the assemblers -/

/-- The twelve sensor columns of the assembled DataFrame (lines 95-106). -/
inductive SCol where
  | ax | ay | az | gx | gy | gz | mx | my | mz | a_total | g_total | m_total
  deriving DecidableEq

/-- A sensor row: one optional value per column; none models NaN. -/
abbrev SRow (S : Type) : Type := SCol → Option S

def blankSRow {S : Type} : SRow S := fun _ => none

/-- A sensor DataFrame: (label, row) pairs in index order. -/
abbrev STable (S : Type) : Type := List (String × SRow S)

/-- The values of one column, in index order. -/
def colList {S : Type} (df : STable S) (c : SCol) : List (Option S) :=
  df.map (fun p => p.2 c)

/-- The index labels of a table of rows of any shape. -/
def labelsOf {ρ : Type} (df : List (String × ρ)) : List String :=
  df.map (fun p => p.1)

/-- Positional cell access: the value of column c at row position j. -/
def pcell {S : Type} (df : STable S) (j : ℕ) (c : SCol) : Option S :=
  (colList df c).getD j none

/-- Position of the first row with the given label, if any. -/
def firstIdx? (lbl : String) : List String → Option ℕ
  | [] => none
  | t :: ts => if t = lbl then some 0 else (firstIdx? lbl ts).map (fun i => i + 1)

/-- Label-keyed cell access: the value of column c in the first row labelled
lbl (what pandas df.at reads on a unique index). -/
def cellVal {S : Type} : STable S → String → SCol → Option S
  | [], _, _ => none
  | p :: ps, lbl, c => if p.1 = lbl then p.2 c else cellVal ps lbl c

/-- Last defined entry of the column strictly before position i, as
(position, value). -/
def definedBefore {S : Type} (xs : List (Option S)) (i : ℕ) : Option (ℕ × S) :=
  ((List.range i).filterMap (fun j => (xs.getD j none).map (fun v => (j, v)))).getLast?

/-- First defined entry of the column at or after position i. -/
def definedFrom {S : Type} (xs : List (Option S)) (i : ℕ) : Option (ℕ × S) :=
  (((List.range xs.length).drop i).filterMap
    (fun j => (xs.getD j none).map (fun v => (j, v)))).head?

/-- One cell of pandas Series.interpolate(method='linear') with the default
limit_direction='forward': a defined cell is kept; an undefined cell with no
defined predecessor stays undefined; an undefined cell between two defined
neighbours is linearly interpolated on positions; an undefined cell after
the last defined one is filled with that last defined value. -/
def interpCell {S : Type} [Field S] (xs : List (Option S)) (i : ℕ) : Option S :=
  match xs.getD i none with
  | some v => some v
  | none =>
    match definedBefore xs i with
    | none => none
    | some (j, vj) =>
      match definedFrom xs (i + 1) with
      | some (k, vk) => some (vj + (vk - vj) * (((i : S) - (j : S)) / ((k : S) - (j : S))))
      | none => some vj

/-- pandas Series.interpolate(method='linear') on one column. -/
def interpList {S : Type} [Field S] (xs : List (Option S)) : List (Option S) :=
  (List.range xs.length).map (interpCell xs)

/-- pandas DataFrame.interpolate(method='linear') (line 121): each column
interpolated independently; labels unchanged. -/
def interpolateFrame {S : Type} [Field S] (df : STable S) : STable S :=
  (List.range df.length).map (fun i =>
    ((df.getD i ("", blankSRow)).1, fun c => (interpList (colList df c)).getD i none))

/-- A raw XML element: its tag (tags a/g/m write sensor cells, any other tag
such as wr only contributes its timestamp to the grid), its st timestamp
attribute and its numeric x, y, z attributes. -/
structure RawElem (S : Type) where
  tag : String
  st : String
  x : S
  y : S
  z : S

/-- The f-string column selection of lines 114-117: the four columns written
for a sensor tag; none for other tags. -/
def axisCols (tag : String) : Option (SCol × SCol × SCol × SCol) :=
  if tag = "a" then some (SCol.ax, SCol.ay, SCol.az, SCol.a_total)
  else if tag = "g" then some (SCol.gx, SCol.gy, SCol.gz, SCol.g_total)
  else if tag = "m" then some (SCol.mx, SCol.my, SCol.mz, SCol.m_total)
  else none

def updateRow {S : Type} (r : SRow S) (c : SCol) (v : S) : SRow S :=
  fun k => if k = c then some v else r k

/-- pandas df.at[lbl, c] = v: update the cell in every row with that label
when present, otherwise enlarge the frame with a fresh trailing row that is
undefined in every other column. -/
def setCell {S : Type} (df : STable S) (lbl : String) (c : SCol) (v : S) : STable S :=
  if df.any (fun p => p.1 = lbl) then
    df.map (fun p => if p.1 = lbl then (p.1, updateRow p.2 c v) else p)
  else df ++ [(lbl, updateRow blankSRow c v)]

/-- Lines 108-119: write one element's x, y, z cells and its magnitude cell
sqrt(x**2 + y**2 + z**2) at its exact st timestamp; non-sensor tags write
nothing.  np.sqrt is the abstract function parameter sqrt. -/
def writeElem {S : Type} [Field S] (sqrt : S → S) (df : STable S) (e : RawElem S) : STable S :=
  match axisCols e.tag with
  | none => df
  | some (cx, cy, cz, ct) =>
    setCell (setCell (setCell (setCell df e.st cx e.x) e.st cy e.y) e.st cz e.z)
      e.st ct (sqrt (e.x ^ 2 + e.y ^ 2 + e.z ^ 2))

/-- Triad consistency of one assembled row: for every sensor tag, either all
four of its columns are undefined, or the three components are defined and
the magnitude column holds sqrt of the sum of their squares. -/
def triadConsistent {S : Type} [Field S] (sqrt : S → S) (r : SRow S) : Prop :=
  ∀ tag cx cy cz ct, axisCols tag = some (cx, cy, cz, ct) →
    (r cx = none ∧ r cy = none ∧ r cz = none ∧ r ct = none) ∨
    ∃ x y z, r cx = some x ∧ r cy = some y ∧ r cz = some z ∧
      r ct = some (sqrt (x ^ 2 + y ^ 2 + z ^ 2))

/-- xml_imu_sensors_converter up to (not including) the interpolation call:
the empty-input exit (line 76), grid construction from every element's st
attribute (lines 80-93) and the write loop (lines 108-119).  none models
the process exit / parse exceptions. -/
def assembleSensors {S : Type} [Field S] (sqrt : S → S) (root : List (RawElem S)) :
    Option (STable S) :=
  if root.length < 1 then none
  else
    (calculate_ms_interval (dedupKeepFirst (root.map (fun e => e.st)))).map
      (fun full_timestamps_list =>
        root.foldl (writeElem sqrt) (full_timestamps_list.map (fun t => (t, blankSRow))))

/-- xml_imu_sensors_converter (lines 60-124): assemble, then
df.interpolate(method='linear'). -/
def xml_imu_sensors_converter {S : Type} [Field S] (sqrt : S → S)
    (root : List (RawElem S)) : Option (STable S) :=
  (assembleSensors sqrt root).map interpolateFrame

/-! ### Ground-truth alignment -/

/-- One ground-truth record: the raw time attribute string and its pre-parsed
lat / long decimal attributes. -/
structure GTRec (S : Type) where
  time : String
  lat : S
  long : S

/-- Python s[:11] (character slicing). -/
def trunc11 (s : String) : String := ⟨s.data.take 11⟩

/-- An aligned table: each row carries the base row of the input table plus
the appended lat and long cells. -/
abbrev ATable (β S : Type) : Type := List (String × β × Option S × Option S)

/-- Lines 146-147: add all-undefined lat and long columns. -/
def addLatLongCols {β S : Type} (T : List (String × β)) : ATable β S :=
  T.map (fun p => (p.1, p.2, none, none))

/-- Lines 149-153: write one ground-truth record's lat and long at its
truncated timestamp via pandas .at: update every row with that label when
present, else enlarge with a fresh trailing row whose base cells are blank.
The two consecutive .at writes of the source touch the same label, so their
net effect is this single upsert. -/
def gtWrite {β S : Type} (blank : β) (T : ATable β S) (r : GTRec S) : ATable β S :=
  let key := trunc11 r.time
  if T.any (fun p => p.1 = key) then
    T.map (fun p => if p.1 = key then (p.1, p.2.1, some r.lat, some r.long) else p)
  else T ++ [(key, blank, some r.lat, some r.long)]

/-- The ground-truth write loop (lines 149-153). -/
def gtAttach {β S : Type} (blank : β) (T : List (String × β)) (gt : List (GTRec S)) :
    ATable β S :=
  gt.foldl (gtWrite blank) (addLatLongCols T)

/-- Python string comparison <= : lexicographic on code points, a prefix
comparing below its extensions (this is what the pandas boolean masks
df.index >= s and df.index <= s evaluate on a string index). -/
def lexLe : List Char → List Char → Bool
  | [], _ => true
  | _ :: _, [] => false
  | c :: cs, d :: ds => if c = d then lexLe cs ds else decide (c < d)

def strLe (s t : String) : Bool := lexLe s.data t.data

/-- Lines 155-158: boolean-mask trimming of the string index, with Python's
lexicographic string comparisons. -/
def trimTable {β S : Type} (firstLoc lastLoc : String) (T : ATable β S) : ATable β S :=
  (T.filter (fun p => strLe firstLoc p.1)).filter (fun p => strLe p.1 lastLoc)

/-- The column of base-row values of sensor column c in an aligned table. -/
def aColList {S : Type} (T : ATable (SRow S) S) (c : SCol) : List (Option S) :=
  T.map (fun p => p.2.1 c)

def latColList {β S : Type} (T : ATable β S) : List (Option S) :=
  T.map (fun p => p.2.2.1)

def longColList {β S : Type} (T : ATable β S) : List (Option S) :=
  T.map (fun p => p.2.2.2)

/-- The lat cell of the first row with the given label. -/
def latVal {β S : Type} : ATable β S → String → Option S
  | [], _ => none
  | p :: ps, lbl => if p.1 = lbl then p.2.2.1 else latVal ps lbl

/-- The long cell of the first row with the given label. -/
def longVal {β S : Type} : ATable β S → String → Option S
  | [], _ => none
  | p :: ps, lbl => if p.1 = lbl then p.2.2.2 else longVal ps lbl

/-- Line 161: sens_and_loc_df.interpolate(method='linear') interpolates every
column of the aligned frame: the sensor columns and lat and long alike. -/
def interpolateFrameA {S : Type} [Field S] (T : ATable (SRow S) S) : ATable (SRow S) S :=
  (List.range T.length).map (fun i =>
    ((T.getD i ("", blankSRow, none, none)).1,
      fun c => (interpList (aColList T c)).getD i none,
      (interpList (latColList T)).getD i none,
      (interpList (longColList T)).getD i none))

inductive AlignError where
  | emptyGroundTruth
  deriving DecidableEq

/-- imu_sensor_and_position_generator (lines 127-164): read the first and
last ground-truth timestamps truncated to 11 characters, attach lat/long,
trim the index to the [first, last] string interval and interpolate every
column.  On an empty ground-truth file the very first root[0] access raises,
modelled as the empty-ground-truth error. -/
def imu_sensor_and_position_generator {S : Type} [Field S]
    (sensors_df : List (String × SRow S)) (gt : List (GTRec S)) :
    Except AlignError (ATable (SRow S) S) :=
  match gt with
  | [] => .error .emptyGroundTruth
  | g0 :: grest =>
    let first_loc_timestamp := trunc11 g0.time
    let last_loc_timestamp := trunc11 ((g0 :: grest).getLast (List.cons_ne_nil g0 grest)).time
    .ok (interpolateFrameA
      (trimTable first_loc_timestamp last_loc_timestamp
        (gtAttach blankSRow sensors_df (g0 :: grest))))

/-! ### Wifi alignment and the sufficiency filter -/

/-- A wifi row: signal strength per access-point identifier column. -/
abbrev WRow (S : Type) : Type := String → Option S

def blankWRow {S : Type} : WRow S := fun _ => none

/-- Lines 251-252: interpolate just the lat and long columns of the trimmed
frame, leaving labels and access-point cells unchanged (the two
Series.interpolate(inplace=True) calls write through the column views of
the trimmed frame; access-point columns are left untouched). -/
def interpolateLatLong {S : Type} [Field S] (T : ATable (WRow S) S) : ATable (WRow S) S :=
  (List.range T.length).map (fun i =>
    ((T.getD i ("", blankWRow, none, none)).1,
      (T.getD i ("", blankWRow, none, none)).2.1,
      (interpList (latColList T)).getD i none,
      (interpList (longColList T)).getD i none))

/-- wifi_and_position_generator without its final dropna (lines 225-252):
the same truncate / attach / trim steps as the sensor aligner, then
interpolation of only the lat and long columns. -/
def wifi_latlong_step {S : Type} [Field S]
    (wifi_df : List (String × WRow S)) (gt : List (GTRec S)) :
    Except AlignError (ATable (WRow S) S) :=
  match gt with
  | [] => .error .emptyGroundTruth
  | g0 :: grest =>
    let first_loc_timestamp := trunc11 g0.time
    let last_loc_timestamp := trunc11 ((g0 :: grest).getLast (List.cons_ne_nil g0 grest)).time
    .ok (interpolateLatLong
      (trimTable first_loc_timestamp last_loc_timestamp
        (gtAttach blankWRow wifi_df (g0 :: grest))))

/-- Rows p and q agree on label and base cells, and on the lat/long cells as
well unless their (shared) label is t.  Used to track the effect of
rewriting the values of an overwritten duplicate ground-truth record. -/
def AgreeRel {β S : Type} (t : String) (p q : String × β × Option S × Option S) : Prop :=
  p.1 = q.1 ∧ p.2.1 = q.2.1 ∧ (p.1 ≠ t → p.2.2 = q.2.2)

/-- The number of defined fields of a wifi row across every column of the
frame: the access-point columns cols plus lat and long (what
dropna(thresh=3) counts on line 254). -/
def definedCountW {S : Type} (cols : List String)
    (p : String × WRow S × Option S × Option S) : ℕ :=
  cols.countP (fun c => (p.2.1 c).isSome) +
    (if p.2.2.1.isSome then 1 else 0) + (if p.2.2.2.isSome then 1 else 0)

/-- wifi_and_position_generator (lines 215-256): the lat/long step followed
by dropna(thresh=3, inplace=True): keep exactly the rows having at least 3
defined fields. -/
def wifi_and_position_generator {S : Type} [Field S] (cols : List String)
    (wifi_df : List (String × WRow S)) (gt : List (GTRec S)) :
    Except AlignError (ATable (WRow S) S) :=
  (wifi_latlong_step wifi_df gt).map
    (fun T => T.filter (fun p => decide (3 ≤ definedCountW cols p)))

/-! ### Decimal rendering / parsing round-trip -/

theorem natDigitsAux_append (fuel : ℕ) :
    ∀ (n : ℕ) (acc : List Char),
      natDigitsAux fuel n acc = natDigitsAux fuel n [] ++ acc := by
  induction fuel with
  | zero => intro n acc; simp [natDigitsAux]
  | succ f ih =>
    intro n acc
    by_cases h : n < 10
    · simp [natDigitsAux, h]
    · simp only [natDigitsAux, if_neg h]
      rw [ih (n / 10) (digitChar (n % 10) :: acc),
          ih (n / 10) [digitChar (n % 10)]]
      simp

theorem mem_natDigitsAux {fuel n : ℕ} {acc : List Char} {c : Char}
    (h : c ∈ natDigitsAux fuel n acc) :
    c ∈ acc ∨ ∃ d, d < 10 ∧ c = digitChar d := by
  induction fuel generalizing n acc with
  | zero => exact Or.inl h
  | succ f ih =>
    by_cases hn : n < 10
    · simp only [natDigitsAux, if_pos hn, List.mem_cons] at h
      rcases h with h | h
      · exact Or.inr ⟨n, hn, h⟩
      · exact Or.inl h
    · simp only [natDigitsAux, if_neg hn] at h
      rcases ih h with h | h
      · rcases List.mem_cons.mp h with h | h
        · exact Or.inr ⟨n % 10, Nat.mod_lt _ (by omega), h⟩
        · exact Or.inl h
      · exact Or.inr h

theorem digitChar_isDigit {d : ℕ} (h : d < 10) : (digitChar d).isDigit = true := by
  interval_cases d <;> decide

theorem digitChar_toNat {d : ℕ} (h : d < 10) : (digitChar d).toNat = 48 + d := by
  interval_cases d <;> decide

theorem digitChar_ne_colon {d : ℕ} (h : d < 10) : digitChar d ≠ ':' := by
  interval_cases d <;> decide

theorem colon_not_mem_natRepr (n : ℕ) : ':' ∉ natRepr n := by
  intro h
  rcases mem_natDigitsAux h with h | ⟨d, hd, h⟩
  · simp at h
  · exact digitChar_ne_colon hd h.symm

theorem colon_not_mem_pad2 (n : ℕ) : ':' ∉ pad2 n := by
  unfold pad2
  split
  · intro h
    rcases List.mem_cons.mp h with h | h
    · simp at h
    · exact colon_not_mem_natRepr n h
  · exact colon_not_mem_natRepr n

theorem natRepr_ne_nil (n : ℕ) : natRepr n ≠ [] := by
  unfold natRepr natDigitsAux
  by_cases h : n < 10
  · simp [h]
  · simp only [if_neg h]
    rw [natDigitsAux_append]
    simp

theorem pad2_ne_nil (n : ℕ) : pad2 n ≠ [] := by
  unfold pad2
  split
  · simp
  · exact natRepr_ne_nil n

theorem parseNatAux_append (xs : List Char) :
    ∀ (ys : List Char) (a : ℕ),
      parseNatAux (xs ++ ys) a = (parseNatAux xs a).bind (fun b => parseNatAux ys b) := by
  induction xs with
  | nil => intro ys a; simp [parseNatAux]
  | cons c cs ih =>
    intro ys a
    by_cases h : c.isDigit
    · simp only [List.cons_append, parseNatAux, if_pos h]
      exact ih ys _
    · simp [parseNatAux, h]

theorem parseNatAux_natDigitsAux :
    ∀ (fuel n : ℕ), n < 10 ^ fuel →
      parseNatAux (natDigitsAux fuel n []) 0 = some n := by
  intro fuel
  induction fuel with
  | zero =>
    intro n hn
    have hn0 : n = 0 := Nat.lt_one_iff.mp (by simpa using hn)
    subst hn0
    rfl
  | succ f ih =>
    intro n hn
    by_cases h : n < 10
    · simp [natDigitsAux, h, parseNatAux, digitChar_isDigit h, digitChar_toNat h]
    · have hdiv : n / 10 < 10 ^ f := by
        rw [Nat.div_lt_iff_lt_mul (by omega)]
        calc n < 10 ^ (f + 1) := hn
        _ = 10 ^ f * 10 := by ring
      simp only [natDigitsAux, if_neg h]
      rw [natDigitsAux_append, parseNatAux_append, ih (n / 10) hdiv]
      have h10 : n % 10 < 10 := Nat.mod_lt _ (by omega)
      show parseNatAux [digitChar (n % 10)] (n / 10) = some n
      simp only [parseNatAux, if_pos (digitChar_isDigit h10), digitChar_toNat h10]
      congr 1
      omega

theorem parseNat?_of_ne_nil {cs : List Char} (h : cs ≠ []) :
    parseNat? cs = parseNatAux cs 0 := by
  cases cs with
  | nil => exact absurd rfl h
  | cons c cs => rfl

theorem parseNatAux_natRepr (n : ℕ) : parseNatAux (natRepr n) 0 = some n := by
  apply parseNatAux_natDigitsAux
  calc n < 10 ^ n := Nat.lt_pow_self (by omega) n
  _ ≤ 10 ^ (n + 1) := Nat.pow_le_pow_right (by omega) (by omega)

theorem parseNat?_natRepr (n : ℕ) : parseNat? (natRepr n) = some n := by
  rw [parseNat?_of_ne_nil (natRepr_ne_nil n)]
  exact parseNatAux_natRepr n

theorem parseNat?_pad2 (n : ℕ) : parseNat? (pad2 n) = some n := by
  rw [parseNat?_of_ne_nil (pad2_ne_nil n)]
  unfold pad2
  split
  · show parseNatAux ('0' :: natRepr n) 0 = some n
    simp only [parseNatAux, if_pos (by decide : ('0' : Char).isDigit = true)]
    have harg : 0 * 10 + (('0' : Char).toNat - 48) = 0 := by decide
    rw [harg]
    exact parseNatAux_natRepr n
  · exact parseNatAux_natRepr n

/-! ### split(':') lemmas -/

theorem splitCols_nocolon {w : List Char} (h : ':' ∉ w) : splitCols w = [w] := by
  induction w with
  | nil => rfl
  | cons c cs ih =>
    have hc : c ≠ ':' := fun hc => h (hc ▸ List.mem_cons_self c cs)
    have hcs : ':' ∉ cs := fun hm => h (List.mem_cons_of_mem c hm)
    simp only [splitCols, if_neg hc, ih hcs]

theorem splitCols_append {w : List Char} (rest : List Char) (h : ':' ∉ w) :
    splitCols (w ++ ':' :: rest) = w :: splitCols rest := by
  induction w with
  | nil => simp [splitCols]
  | cons c cs ih =>
    have hc : c ≠ ':' := fun hc => h (hc ▸ List.mem_cons_self c cs)
    have hcs : ':' ∉ cs := fun hm => h (List.mem_cons_of_mem c hm)
    simp only [List.cons_append, splitCols, if_neg hc, List.append_eq, ih hcs]

/-! ### Round trip: parsing a formatted timestamp gives back its value -/

theorem parseTs?_formatTs {v : ℕ} (h10 : 10 ∣ v) :
    parseTs? (formatTs v) = some v := by
  have hsplit :
      splitCols (formatTs v).data =
        [natRepr (v / 3600000), pad2 (v % 3600000 / 60000),
          pad2 (v % 3600000 % 60000 / 1000), pad2 (v % 3600000 % 60000 % 1000 / 10)] := by
    show splitCols (natRepr (v / 3600000) ++ ':' :: _) = _
    rw [splitCols_append _ (colon_not_mem_natRepr _),
        splitCols_append _ (colon_not_mem_pad2 _),
        splitCols_append _ (colon_not_mem_pad2 _),
        splitCols_nocolon (colon_not_mem_pad2 _)]
  unfold parseTs?
  rw [hsplit]
  simp only [parseNat?_natRepr, parseNat?_pad2, Option.bind_eq_bind,
    Option.some_bind]
  congr 1
  omega

/-- Every successfully parsed timestamp value is a multiple of 10 (each
summand of the parse is). -/
theorem parseTs?_mod10 {t : String} {v : ℕ} (h : parseTs? t = some v) : 10 ∣ v := by
  unfold parseTs? at h
  split at h
  · rename_i h4
    cases hh : parseNat? _ <;> rw [hh] at h <;> simp_all
    cases hm : parseNat? _ <;> rw [hm] at h <;> simp_all
    cases hs : parseNat? _ <;> rw [hs] at h <;> simp_all
    cases hc : parseNat? _ <;> rw [hc] at h <;> simp_all
    omega
  · simp at h

/-- A canonical timestamp parses successfully and re-formats to itself. -/
theorem canonicalB_spec {t : String} (h : canonicalB t = true) :
    ∃ v, parseTs? t = some v ∧ t = formatTs v ∧ 10 ∣ v := by
  unfold canonicalB at h
  split at h
  · rename_i v hv
    exact ⟨v, hv, by simpa using h, parseTs?_mod10 hv⟩
  · simp at h

theorem parseVal_eq {t : String} {v : ℕ} (h : parseTs? t = some v) : parseVal t = v := by
  simp [parseVal, h]

/-! ### Generic list helpers -/

theorem head?_mem {α : Type} {l : List α} {x : α} (h : l.head? = some x) : x ∈ l := by
  cases l with
  | nil => simp at h
  | cons z zs =>
    have hz : z = x := by simpa using h
    exact hz ▸ List.mem_cons_self z zs

theorem getLast?_mem {α : Type} {l : List α} {y : α} (h : l.getLast? = some y) : y ∈ l := by
  rcases List.mem_getLast?_eq_getLast (show y ∈ l.getLast? from by simp [Option.mem_def, h]) with
    ⟨hne, hy⟩
  exact hy ▸ List.getLast_mem hne

theorem pairwise_head?_rel {α : Type} {R : α → α → Prop} (hrefl : ∀ x, R x x)
    {l : List α} {x : α} (hp : l.Pairwise R) (hh : l.head? = some x) :
    ∀ t ∈ l, R x t := by
  cases l with
  | nil => simp at hh
  | cons z zs =>
    have hz : z = x := by simpa using hh
    subst hz
    intro t ht
    rcases List.mem_cons.mp ht with rfl | ht
    · exact hrefl t
    · exact (List.pairwise_cons.mp hp).1 t ht

theorem pairwise_getLast?_rel {α : Type} {R : α → α → Prop} (hrefl : ∀ x, R x x)
    {l : List α} {y : α} (hp : l.Pairwise R) (hl : l.getLast? = some y) :
    ∀ t ∈ l, R t y := by
  induction l with
  | nil => simp at hl
  | cons z zs ih =>
    cases zs with
    | nil =>
      have hz : z = y := by simpa using hl
      subst hz
      intro t ht
      rcases List.mem_cons.mp ht with rfl | ht
      · exact hrefl t
      · simp at ht
    | cons w ws =>
      rw [List.getLast?_cons_cons] at hl
      obtain ⟨hz, hp'⟩ := List.pairwise_cons.mp hp
      intro t ht
      rcases List.mem_cons.mp ht with rfl | ht
      · exact hz y (getLast?_mem hl)
      · exact ih hp' hl t ht

theorem getD_map_range {f : ℕ → String} {n i : ℕ} (h : i < n) :
    ((List.range n).map f).getD i "" = f i := by
  rw [List.getD_eq_getElem?_getD, List.getElem?_map, List.getElem?_range h]
  rfl

/-! ### Order-preserving deduplication lemmas -/

theorem dedupAux_sublist : ∀ (l seen : List String), List.Sublist (dedupAux l seen) l := by
  intro l
  induction l with
  | nil => intro seen; simp [dedupAux]
  | cons x xs ih =>
    intro seen
    unfold dedupAux
    split
    · exact (ih seen).cons x
    · exact (ih (x :: seen)).cons₂ x

theorem dedupKeepFirst_sublist (l : List String) :
    List.Sublist (dedupKeepFirst l) l := dedupAux_sublist l []

theorem dedupKeepFirst_cons (x : String) (xs : List String) :
    dedupKeepFirst (x :: xs) = x :: dedupAux xs [x] := by
  simp [dedupKeepFirst, dedupAux]

theorem mem_dedupAux : ∀ (l seen : List String) (a : String),
    a ∈ dedupAux l seen ↔ a ∈ l ∧ a ∉ seen := by
  intro l
  induction l with
  | nil => intro seen a; simp [dedupAux]
  | cons x xs ih =>
    intro seen a
    unfold dedupAux
    split
    · rename_i hx
      rw [ih]
      constructor
      · rintro ⟨h1, h2⟩; exact ⟨List.mem_cons_of_mem x h1, h2⟩
      · rintro ⟨h1, h2⟩
        rcases List.mem_cons.mp h1 with rfl | h1
        · exact absurd hx h2
        · exact ⟨h1, h2⟩
    · rename_i hx
      constructor
      · intro h
        rcases List.mem_cons.mp h with rfl | h
        · exact ⟨List.mem_cons_self a xs, hx⟩
        · rw [ih] at h
          refine ⟨List.mem_cons_of_mem x h.1, fun hseen => h.2 (List.mem_cons_of_mem x hseen)⟩
      · rintro ⟨h1, h2⟩
        rcases List.mem_cons.mp h1 with rfl | h1
        · exact List.mem_cons_self a _
        · by_cases hax : a = x
          · exact hax ▸ List.mem_cons_self x _
          · exact List.mem_cons_of_mem x
              ((ih (x :: seen) a).mpr ⟨h1, fun hm => by
                rcases List.mem_cons.mp hm with h | h
                · exact hax h
                · exact h2 h⟩)

theorem mem_dedupKeepFirst (l : List String) (a : String) :
    a ∈ dedupKeepFirst l ↔ a ∈ l := by
  rw [dedupKeepFirst, mem_dedupAux]
  simp

/-! ### C10: reversed inputs produce an empty grid -/

theorem fdiv10_succ_toNat_eq_zero {x : ℤ} (hx : x < 0) : (x.fdiv 10 + 1).toNat = 0 := by
  rw [Int.fdiv_eq_ediv x (by norm_num)]
  omega

/-- C10: for every input list whose last deduplicated timestamp parses to a
strictly smaller millisecond value than its first, calculate_ms_interval
returns an empty list (Python floor division makes the range bound
non-positive). -/
theorem claim_C10 (l : List String) (first last : String) (a b : ℕ)
    (hh : (dedupKeepFirst l).head? = some first)
    (hl : (dedupKeepFirst l).getLast? = some last)
    (ha : parseTs? first = some a)
    (hb : parseTs? last = some b)
    (hba : b < a) :
    calculate_ms_interval (dedupKeepFirst l) = some [] := by
  have hx : ((b : ℤ) - (a : ℤ)) < 0 := by omega
  have h0 := fdiv10_succ_toNat_eq_zero hx
  simp only [calculate_ms_interval, hh, hl, ha, hb, Option.bind_eq_bind, Option.some_bind]
  rw [h0]
  rfl

theorem claim_C10_witness :
    calculate_ms_interval (dedupKeepFirst ["0:00:00:05", "0:00:00:01"]) = some [] := by
  exact claim_C10 ["0:00:00:05", "0:00:00:01"] "0:00:00:05" "0:00:00:01" 50 10
    (by decide) (by decide) (by decide) (by decide) (by decide)

/-! ### C1: grid length and 10 ms spacing -/

/-- The computed grid, in explicit form, for a well-parsed non-reversed pair
of endpoints. -/
theorem calculate_ms_interval_eq {d : List String} {first last : String} {a b : ℕ}
    (hh : d.head? = some first) (hl : d.getLast? = some last)
    (ha : parseTs? first = some a) (hb : parseTs? last = some b)
    (hab : a ≤ b) :
    calculate_ms_interval d =
      some ((List.range ((b - a) / 10 + 1)).map fun ms => formatTs (a + ms * 10)) := by
  simp only [calculate_ms_interval, hh, hl, ha, hb, Option.bind_eq_bind, Option.some_bind]
  have h3 : (((b : ℤ) - (a : ℤ)).fdiv 10 + 1).toNat = (b - a) / 10 + 1 := by
    rw [Int.fdiv_eq_ediv _ (by norm_num)]
    omega
  rw [h3]

/-- C1: for every non-empty time-ordered list of raw timestamps, the grid
built from the order-preserving-deduplicated list has length
(lastMs - firstMs)/10 + 1 and consecutive entries parse to values exactly
10 ms apart. -/
theorem claim_C1 (l : List String) (first last : String) (a b : ℕ)
    (hord : l.Pairwise (fun s t => parseVal s ≤ parseVal t))
    (hh : (dedupKeepFirst l).head? = some first)
    (hl : (dedupKeepFirst l).getLast? = some last)
    (ha : parseTs? first = some a)
    (hb : parseTs? last = some b) :
    ((calculate_ms_interval (dedupKeepFirst l)).getD []).length = (b - a) / 10 + 1 ∧
    ∀ i, i + 1 < ((calculate_ms_interval (dedupKeepFirst l)).getD []).length →
      parseVal (((calculate_ms_interval (dedupKeepFirst l)).getD []).getD (i + 1) "") =
        parseVal (((calculate_ms_interval (dedupKeepFirst l)).getD []).getD i "") + 10 := by
  have hordd : (dedupKeepFirst l).Pairwise (fun s t => parseVal s ≤ parseVal t) :=
    hord.sublist (dedupKeepFirst_sublist l)
  have hab : a ≤ b := by
    have h1 := pairwise_head?_rel (R := fun s t => parseVal s ≤ parseVal t)
      (fun x => le_refl _) hordd hh last (getLast?_mem hl)
    have h2 : parseVal first ≤ parseVal last := h1
    rw [parseVal_eq ha, parseVal_eq hb] at h2
    exact h2
  have hcalc := calculate_ms_interval_eq hh hl ha hb hab
  rw [hcalc]
  have h10a : 10 ∣ a := parseTs?_mod10 ha
  constructor
  · simp
  · intro i hi
    simp only [Option.getD_some, List.length_map, List.length_range] at hi
    simp only [Option.getD_some]
    rw [getD_map_range (by omega), getD_map_range (by omega)]
    have hv1 : 10 ∣ a + (i + 1) * 10 := by omega
    have hv0 : 10 ∣ a + i * 10 := by omega
    rw [parseVal_eq (parseTs?_formatTs hv1), parseVal_eq (parseTs?_formatTs hv0)]
    ring

theorem claim_C1_witness :
    (["10:00:00:00", "10:00:00:05"] : List String).Pairwise
        (fun s t => parseVal s ≤ parseVal t) ∧
    ((calculate_ms_interval (dedupKeepFirst ["10:00:00:00", "10:00:00:05"])).getD
        []).length = (36000050 - 36000000) / 10 + 1 ∧
    parseVal (((calculate_ms_interval
        (dedupKeepFirst ["10:00:00:00", "10:00:00:05"])).getD []).getD 1 "") =
      parseVal (((calculate_ms_interval
        (dedupKeepFirst ["10:00:00:00", "10:00:00:05"])).getD []).getD 0 "") + 10 := by
  have h := claim_C1 ["10:00:00:00", "10:00:00:05"] "10:00:00:00" "10:00:00:05"
    36000000 36000050 (by decide) (by decide) (by decide) (by decide) (by decide)
  exact ⟨by decide, h.1, h.2 0 (by rw [h.1]; omega)⟩

/-! ### C8: grid endpoints are the deduplicated input's endpoints -/

theorem head?_map_range_succ (f : ℕ → String) (n : ℕ) :
    ((List.range (n + 1)).map f).head? = some (f 0) := by
  rw [List.range_succ_eq_map]
  rfl

theorem getLast?_map_range_succ (f : ℕ → String) (n : ℕ) :
    ((List.range (n + 1)).map f).getLast? = some (f n) := by
  rw [List.range_succ, List.map_append, List.getLast?_append_of_ne_nil _ (by simp)]
  rfl

/-- C8: for a non-empty, time-ordered list of canonical-form timestamps, the
grid built from the deduplicated list starts at the deduplicated list's first
string and ends at its last (those being the minimum resp. maximum of the
observed deduplicated timestamps in parsed value), and a single distinct
timestamp yields that exact one-element list, the parse/reformat round trip
being the identity on canonical timestamps. -/
theorem claim_C8 (l : List String) (first last : String)
    (hcanon : ∀ t ∈ l, canonicalB t = true)
    (hord : l.Pairwise (fun s t => parseVal s ≤ parseVal t))
    (hh : (dedupKeepFirst l).head? = some first)
    (hl : (dedupKeepFirst l).getLast? = some last) :
    ((calculate_ms_interval (dedupKeepFirst l)).getD []).head? = some first ∧
    ((calculate_ms_interval (dedupKeepFirst l)).getD []).getLast? = some last ∧
    (∀ t ∈ dedupKeepFirst l, parseVal first ≤ parseVal t ∧ parseVal t ≤ parseVal last) ∧
    ((dedupKeepFirst l).length = 1 →
      (calculate_ms_interval (dedupKeepFirst l)).getD [] = dedupKeepFirst l) := by
  have hfirstmem : first ∈ l := (mem_dedupKeepFirst l first).mp (head?_mem hh)
  have hlastmem : last ∈ l := (mem_dedupKeepFirst l last).mp (getLast?_mem hl)
  obtain ⟨a, ha, hafmt, h10a⟩ := canonicalB_spec (hcanon first hfirstmem)
  obtain ⟨b, hb, hbfmt, h10b⟩ := canonicalB_spec (hcanon last hlastmem)
  have hordd := hord.sublist (dedupKeepFirst_sublist l)
  have hab : a ≤ b := by
    have h1 := pairwise_head?_rel (R := fun s t => parseVal s ≤ parseVal t)
      (fun x => le_refl _) hordd hh last (getLast?_mem hl)
    have h2 : parseVal first ≤ parseVal last := h1
    rw [parseVal_eq ha, parseVal_eq hb] at h2
    exact h2
  have hcalc := calculate_ms_interval_eq hh hl ha hb hab
  rw [hcalc]
  simp only [Option.getD_some]
  refine ⟨?_, ?_, ?_, ?_⟩
  · rw [head?_map_range_succ]
    have h0 : a + 0 * 10 = a := by ring
    rw [h0, ← hafmt]
  · rw [getLast?_map_range_succ]
    have hlastval : a + (b - a) / 10 * 10 = b := by omega
    rw [hlastval, ← hbfmt]
  · intro t ht
    constructor
    · exact pairwise_head?_rel (R := fun s t => parseVal s ≤ parseVal t)
        (fun x => le_refl _) hordd hh t ht
    · exact pairwise_getLast?_rel (R := fun s t => parseVal s ≤ parseVal t)
        (fun x => le_refl _) hordd hl t ht
  · intro hlen
    cases hd : dedupKeepFirst l with
    | nil => rw [hd] at hh; simp at hh
    | cons x xs =>
      rw [hd] at hh hl hlen
      have hxs : xs = [] := by
        cases xs with
        | nil => rfl
        | cons y ys => simp at hlen
      subst hxs
      have hx : x = first := by simpa using hh
      have hlf : x = last := by simpa using hl
      have hba : b = a := by
        rw [← hlf, hx] at hb
        rw [ha] at hb
        exact (Option.some.inj hb).symm
      rw [hba]
      have hr : (a - a) / 10 + 1 = 1 := by omega
      rw [hr]
      have hrange : List.range 1 = [0] := rfl
      rw [hrange]
      simp only [List.map_cons, List.map_nil]
      rw [show a + 0 * 10 = a by ring, ← hafmt, hx]

theorem claim_C8_witness :
    ((calculate_ms_interval (dedupKeepFirst ["10:00:00:05"])).getD []).head? =
        some "10:00:00:05" ∧
    (calculate_ms_interval (dedupKeepFirst ["10:00:00:05"])).getD [] =
        dedupKeepFirst ["10:00:00:05"] := by
  have h := claim_C8 ["10:00:00:05"] "10:00:00:05" "10:00:00:05"
    (by decide) (by decide) (by decide) (by decide)
  exact ⟨h.1, h.2.2.2 (by decide)⟩

/-! ### Interpolation lemmas -/

theorem getD_map_range' {α : Type} {f : ℕ → α} {n i : ℕ} (h : i < n) (d : α) :
    ((List.range n).map f).getD i d = f i := by
  rw [List.getD_eq_getElem?_getD, List.getElem?_map, List.getElem?_range h]
  rfl

theorem map_getD_range {α β : Type} (l : List α) (d : α) (g : α → β) :
    (List.range l.length).map (fun i => g (l.getD i d)) = l.map g := by
  apply List.ext_getElem (by simp)
  intro i h1 h2
  simp only [List.getElem_map, List.getElem_range]
  rw [List.getD_eq_getElem?_getD, List.getElem?_eq_getElem (by simpa using h2)]
  rfl

theorem interpList_length {S : Type} [Field S] (xs : List (Option S)) :
    (interpList xs).length = xs.length := by
  simp [interpList]

theorem getD_interpList {S : Type} [Field S] {xs : List (Option S)} {i : ℕ}
    (h : i < xs.length) : (interpList xs).getD i none = interpCell xs i :=
  getD_map_range' h none

theorem colList_length {S : Type} (df : STable S) (c : SCol) :
    (colList df c).length = df.length := by
  simp [colList]

theorem colList_interpolateFrame {S : Type} [Field S] (df : STable S) (c : SCol) :
    colList (interpolateFrame df) c = interpList (colList df c) := by
  have h2 : (List.range (interpList (colList df c)).length).map
      (fun i => (interpList (colList df c)).getD i none) = interpList (colList df c) := by
    have := map_getD_range (interpList (colList df c)) none id
    simpa using this
  have hlen : (interpList (colList df c)).length = df.length := by
    rw [interpList_length, colList_length]
  rw [← h2, hlen]
  unfold colList interpolateFrame
  rw [List.map_map]
  rfl

theorem labelsOf_interpolateFrame {S : Type} [Field S] (df : STable S) :
    labelsOf (interpolateFrame df) = labelsOf df := by
  unfold labelsOf interpolateFrame
  rw [List.map_map]
  have := map_getD_range df ("", blankSRow) (fun p => p.1)
  simpa using this

theorem definedBefore_spec {S : Type} {xs : List (Option S)} {i j : ℕ} {v : S}
    (h : definedBefore xs i = some (j, v)) : j < i ∧ xs.getD j none = some v := by
  unfold definedBefore at h
  have hmem := getLast?_mem h
  rw [List.mem_filterMap] at hmem
  obtain ⟨j', hj', hmap⟩ := hmem
  cases hx : xs.getD j' none with
  | none => rw [hx] at hmap; simp at hmap
  | some w =>
    rw [hx] at hmap
    simp only [Option.map_some'] at hmap
    obtain ⟨rfl, rfl⟩ := Prod.mk.injEq .. ▸ Option.some.inj hmap
    exact ⟨List.mem_range.mp hj', hx⟩

theorem definedBefore_eq_none_iff {S : Type} {xs : List (Option S)} {i : ℕ} :
    definedBefore xs i = none ↔ ∀ j < i, xs.getD j none = none := by
  unfold definedBefore
  rw [List.getLast?_eq_none_iff, List.filterMap_eq_nil_iff]
  constructor
  · intro h j hj
    have := h j (List.mem_range.mpr hj)
    cases hx : xs.getD j none with
    | none => rfl
    | some v => rw [hx] at this; simp at this
  · intro h j hj
    rw [h j (List.mem_range.mp hj)]
    rfl

theorem interpCell_defined {S : Type} [Field S] {xs : List (Option S)} {i : ℕ} {v : S}
    (h : xs.getD i none = some v) : interpCell xs i = some v := by
  unfold interpCell
  rw [h]

theorem option_eq_some_getD {α : Type} {o : Option α} (d : α) (h : o.isSome = true) :
    o = some (o.getD d) := by
  cases o with
  | none => simp at h
  | some v => rfl

/-- The core of the (corrected) interpolation invariant: an output cell is
undefined iff every cell at its position or earlier was undefined. -/
theorem interpCell_eq_none_iff {S : Type} [Field S] {xs : List (Option S)} {i : ℕ} :
    interpCell xs i = none ↔ ∀ j ≤ i, xs.getD j none = none := by
  unfold interpCell
  cases hx : xs.getD i none with
  | some v =>
    constructor
    · intro h; simp at h
    · intro h
      have := h i le_rfl
      rw [hx] at this
      simp at this
  | none =>
    cases hb : definedBefore xs i with
    | none =>
      constructor
      · intro _ j hj
        rcases Nat.lt_or_ge j i with hlt | hge
        · exact (definedBefore_eq_none_iff.mp hb) j hlt
        · have hji : j = i := le_antisymm hj hge
          rw [hji, hx]
      · intro _; rfl
    | some p =>
      obtain ⟨j0, v0⟩ := p
      have hspec := definedBefore_spec hb
      constructor
      · intro h
        cases hf : definedFrom xs (i + 1) with
        | some q =>
          rw [hf] at h
          obtain ⟨k, vk⟩ := q
          simp at h
        | none => rw [hf] at h; simp at h
      · intro hall
        have := hall j0 (le_of_lt hspec.1)
        rw [hspec.2] at this
        simp at this

/-! ### C2: the interpolation invariant of the sensor assembler -/

/-- C2 is refuted on the code: with an accelerometer reading only at the
first grid timestamp (and a wr element extending the grid to three rows),
the cells of column ax after its last defined cell (position 0) do not stay
undefined: pandas interpolate forward-fills them with the last defined
value. -/
theorem claim_C2_counterexample :
    colList ((assembleSensors (S := ℚ) (fun q => q)
        [⟨"a", "0:00:00:00", 1, 1, 1⟩, ⟨"wr", "0:00:00:02", 0, 0, 0⟩]).getD [])
        SCol.ax = [some 1, none, none] ∧
    (colList ((xml_imu_sensors_converter (S := ℚ) (fun q => q)
        [⟨"a", "0:00:00:00", 1, 1, 1⟩, ⟨"wr", "0:00:00:02", 0, 0, 0⟩]).getD [])
        SCol.ax).getD 2 none = some 1 := by
  constructor
  · decide
  · decide

/-- C2 (amended): in xml_imu_sensors_converter's output, a cell of a column
is undefined iff every cell of that column at its position or earlier was
undefined before interpolation: cells before the first defined cell stay
undefined and interior gaps are filled, as claimed, but cells after the
last defined cell are forward-filled with the last defined value rather
than left undefined. -/
theorem claim_C2_amended {S : Type} [Field S] (sqrt : S → S) (root : List (RawElem S))
    (P : STable S) (_hP : assembleSensors sqrt root = some P) (c : SCol) (i : ℕ)
    (hi : i < P.length) :
    ((colList (interpolateFrame P) c).getD i none = none ↔
      ∀ j ≤ i, (colList P c).getD j none = none) := by
  rw [colList_interpolateFrame, getD_interpList (by rw [colList_length]; exact hi)]
  exact interpCell_eq_none_iff

theorem claim_C2_witness :
    (colList (interpolateFrame ((assembleSensors (S := ℚ) (fun q => q)
        [⟨"a", "0:00:00:00", 1, 1, 1⟩, ⟨"wr", "0:00:00:02", 0, 0, 0⟩]).getD []))
        SCol.ax).getD 2 none = none ↔
      ∀ j ≤ 2, (colList ((assembleSensors (S := ℚ) (fun q => q)
        [⟨"a", "0:00:00:00", 1, 1, 1⟩, ⟨"wr", "0:00:00:02", 0, 0, 0⟩]).getD [])
        SCol.ax).getD j none = none := by
  exact claim_C2_amended (fun q => q) _ _ (option_eq_some_getD [] (by decide))
    SCol.ax 2 (by decide)

/-! ### C7: empty ground truth -/

/-- C7: the location aligner fails with the empty-ground-truth error exactly
when the ground-truth source has zero records; on every non-empty source it
does not fail. -/
theorem claim_C7 {S : Type} [Field S] (sensors_df : List (String × SRow S))
    (gt : List (GTRec S)) :
    imu_sensor_and_position_generator sensors_df gt =
      Except.error AlignError.emptyGroundTruth ↔ gt = [] := by
  cases gt with
  | nil => simp [imu_sensor_and_position_generator]
  | cons g0 grest => simp [imu_sensor_and_position_generator]

/-! ### C6: the wifi sufficiency filter -/

theorem except_eq_ok_getD {ε α : Type} {o : Except ε α} (d : α) (h : o.isOk = true) :
    o = Except.ok (o.toOption.getD d) := by
  cases o with
  | error e => simp [Except.isOk, Except.toBool] at h
  | ok v => rfl

theorem getD_mem {α : Type} {l : List α} {i : ℕ} (h : i < l.length) (d : α) :
    l.getD i d ∈ l := by
  rw [List.getD_eq_getElem?_getD, List.getElem?_eq_getElem h]
  exact List.getElem_mem h

/-- C6: after wifi_and_position_generator's dropna(thresh=3), every retained
row has at least 3 defined fields across all columns (the access-point
columns plus lat and long); no row with 2 or fewer defined fields remains. -/
theorem claim_C6 {S : Type} [Field S] (cols : List String)
    (wifi_df : List (String × WRow S)) (gt : List (GTRec S))
    (out : ATable (WRow S) S)
    (hok : wifi_and_position_generator cols wifi_df gt = Except.ok out)
    (i : ℕ) (hi : i < out.length) :
    3 ≤ definedCountW cols (out.getD i ("", blankWRow, none, none)) := by
  unfold wifi_and_position_generator at hok
  cases hstep : wifi_latlong_step wifi_df gt with
  | error e => rw [hstep] at hok; simp [Except.map] at hok
  | ok T =>
    rw [hstep] at hok
    simp only [Except.map] at hok
    have hout : out = T.filter (fun p => decide (3 ≤ definedCountW cols p)) :=
      (Except.ok.inj hok).symm
    rw [hout] at hi ⊢
    have hmem := getD_mem hi ("", blankWRow, (none : Option S), (none : Option S))
    exact of_decide_eq_true
      (List.of_mem_filter (p := fun p => decide (3 ≤ definedCountW cols p)) hmem)

theorem claim_C6_witness :
    (wifi_and_position_generator ["ap1"]
        [("10:00:00:00", fun c => if c = "ap1" then some (5 : ℚ) else none),
         ("10:00:00:01", blankWRow),
         ("10:00:00:02", fun c => if c = "ap1" then some 7 else none)]
        [⟨"10:00:00:000", 1, 2⟩, ⟨"10:00:00:020", 3, 4⟩]).isOk = true ∧
    3 ≤ definedCountW ["ap1"]
      (((wifi_and_position_generator ["ap1"]
        [("10:00:00:00", fun c => if c = "ap1" then some (5 : ℚ) else none),
         ("10:00:00:01", blankWRow),
         ("10:00:00:02", fun c => if c = "ap1" then some 7 else none)]
        [⟨"10:00:00:000", 1, 2⟩, ⟨"10:00:00:020", 3, 4⟩]).toOption.getD []).getD 0
        ("", blankWRow, none, none)) := by
  refine ⟨by decide, ?_⟩
  exact claim_C6 ["ap1"] _ _ _ (except_eq_ok_getD [] (by decide)) 0 (by decide)

/-! ### Aligner lemmas: labels, columns, attach and trim -/

theorem any_label_iff {ρ : Type} (T : List (String × ρ)) (lbl : String) :
    T.any (fun p => p.1 = lbl) = true ↔ lbl ∈ labelsOf T := by
  simp [labelsOf, List.any_eq_true, List.mem_map]

theorem labelsOf_addLatLongCols {β S : Type} (T : List (String × β)) :
    labelsOf (addLatLongCols (S := S) T) = labelsOf T := by
  simp [labelsOf, addLatLongCols, List.map_map, Function.comp]

theorem latColList_addLatLongCols {β S : Type} (T : List (String × β)) :
    latColList (addLatLongCols (S := S) T) = List.replicate T.length none := by
  induction T with
  | nil => rfl
  | cons p ps ih =>
    simp only [addLatLongCols, latColList, List.map_cons, List.length_cons,
      List.replicate_succ]
    exact congrArg (List.cons none) ih

theorem longColList_addLatLongCols {β S : Type} (T : List (String × β)) :
    longColList (addLatLongCols (S := S) T) = List.replicate T.length none := by
  induction T with
  | nil => rfl
  | cons p ps ih =>
    simp only [addLatLongCols, longColList, List.map_cons, List.length_cons,
      List.replicate_succ]
    exact congrArg (List.cons none) ih

theorem labelsOf_gtWrite_of_mem {β S : Type} (blank : β) (T : ATable β S) (r : GTRec S)
    (h : trunc11 r.time ∈ labelsOf T) :
    labelsOf (gtWrite blank T r) = labelsOf T := by
  unfold gtWrite
  rw [if_pos ((any_label_iff T _).mpr h)]
  unfold labelsOf
  rw [List.map_map]
  apply List.map_congr_left
  intro p _
  by_cases hp1 : p.1 = trunc11 r.time <;> simp [hp1]

theorem labelsOf_gtWrite_of_not_mem {β S : Type} (blank : β) (T : ATable β S) (r : GTRec S)
    (h : trunc11 r.time ∉ labelsOf T) :
    labelsOf (gtWrite blank T r) = labelsOf T ++ [trunc11 r.time] := by
  unfold gtWrite
  rw [if_neg (fun ha => h ((any_label_iff T _).mp ha))]
  simp [labelsOf]

theorem labelsOf_foldl_gtWrite {β S : Type} (blank : β) (gtl : List (GTRec S)) :
    ∀ (A : ATable β S), (∀ r ∈ gtl, trunc11 r.time ∈ labelsOf A) →
      labelsOf (gtl.foldl (gtWrite blank) A) = labelsOf A := by
  induction gtl with
  | nil => intro A _; rfl
  | cons r rs ih =>
    intro A h
    have h1 : labelsOf (gtWrite blank A r) = labelsOf A :=
      labelsOf_gtWrite_of_mem blank A r (h r (List.mem_cons_self r rs))
    rw [List.foldl_cons,
      ih (gtWrite blank A r) (fun r' hr' => h1 ▸ h r' (List.mem_cons_of_mem r hr')), h1]

theorem labelsOf_filter {ρ : Type} (p : String → Bool) (T : List (String × ρ)) :
    labelsOf (T.filter (fun q => p q.1)) = (labelsOf T).filter p := by
  induction T with
  | nil => rfl
  | cons x xs ih =>
    cases hx : p x.1 with
    | true =>
      simp only [labelsOf, List.map_cons, List.filter_cons, hx]
      simp only [labelsOf] at ih
      simp [ih]
    | false =>
      simp only [labelsOf, List.map_cons, List.filter_cons, hx]
      simpa [labelsOf] using ih

/-! ### Congruence of the attach / trim steps across base-row types (C5) -/

theorem map_label_lat {β S : Type} (A : ATable β S) (g : String → Option S → Option S) :
    A.map (fun p => g p.1 p.2.2.1) =
      ((labelsOf A).zip (latColList A)).map (fun q => g q.1 q.2) := by
  unfold labelsOf latColList
  rw [List.zip_map', List.map_map]
  rfl

theorem map_label_long {β S : Type} (A : ATable β S) (g : String → Option S → Option S) :
    A.map (fun p => g p.1 p.2.2.2) =
      ((labelsOf A).zip (longColList A)).map (fun q => g q.1 q.2) := by
  unfold labelsOf longColList
  rw [List.zip_map', List.map_map]
  rfl

theorem latColList_gtWrite_present {β S : Type} (b : β) (T : ATable β S) (r : GTRec S)
    (h : T.any (fun p => p.1 = trunc11 r.time) = true) :
    latColList (gtWrite b T r) =
      ((labelsOf T).zip (latColList T)).map
        (fun q => if q.1 = trunc11 r.time then some r.lat else q.2) := by
  unfold gtWrite
  rw [if_pos h]
  have hstep : latColList (T.map (fun p =>
      if p.1 = trunc11 r.time then (p.1, p.2.1, some r.lat, some r.long) else p)) =
      T.map (fun p => if p.1 = trunc11 r.time then some r.lat else p.2.2.1) := by
    unfold latColList
    rw [List.map_map]
    apply List.map_congr_left
    intro p _
    by_cases hp1 : p.1 = trunc11 r.time <;> simp [hp1]
  rw [hstep]
  exact map_label_lat T (fun l v => if l = trunc11 r.time then some r.lat else v)

theorem longColList_gtWrite_present {β S : Type} (b : β) (T : ATable β S) (r : GTRec S)
    (h : T.any (fun p => p.1 = trunc11 r.time) = true) :
    longColList (gtWrite b T r) =
      ((labelsOf T).zip (longColList T)).map
        (fun q => if q.1 = trunc11 r.time then some r.long else q.2) := by
  unfold gtWrite
  rw [if_pos h]
  have hstep : longColList (T.map (fun p =>
      if p.1 = trunc11 r.time then (p.1, p.2.1, some r.lat, some r.long) else p)) =
      T.map (fun p => if p.1 = trunc11 r.time then some r.long else p.2.2.2) := by
    unfold longColList
    rw [List.map_map]
    apply List.map_congr_left
    intro p _
    by_cases hp1 : p.1 = trunc11 r.time <;> simp [hp1]
  rw [hstep]
  exact map_label_long T (fun l v => if l = trunc11 r.time then some r.long else v)

theorem latColList_gtWrite_absent {β S : Type} (b : β) (T : ATable β S) (r : GTRec S)
    (h : ¬ T.any (fun p => p.1 = trunc11 r.time) = true) :
    latColList (gtWrite b T r) = latColList T ++ [some r.lat] := by
  unfold gtWrite
  rw [if_neg h]
  simp [latColList]

theorem longColList_gtWrite_absent {β S : Type} (b : β) (T : ATable β S) (r : GTRec S)
    (h : ¬ T.any (fun p => p.1 = trunc11 r.time) = true) :
    longColList (gtWrite b T r) = longColList T ++ [some r.long] := by
  unfold gtWrite
  rw [if_neg h]
  simp [longColList]

theorem gtWrite_congr {β γ S : Type} (b1 : β) (b2 : γ) {A : ATable β S} {B : ATable γ S}
    (r : GTRec S)
    (hl : labelsOf A = labelsOf B) (hlat : latColList A = latColList B)
    (hlong : longColList A = longColList B) :
    labelsOf (gtWrite b1 A r) = labelsOf (gtWrite b2 B r) ∧
    latColList (gtWrite b1 A r) = latColList (gtWrite b2 B r) ∧
    longColList (gtWrite b1 A r) = longColList (gtWrite b2 B r) := by
  have hiff : (A.any (fun p => p.1 = trunc11 r.time) = true) ↔
      (B.any (fun p => p.1 = trunc11 r.time) = true) := by
    rw [any_label_iff, any_label_iff, hl]
  by_cases hA : A.any (fun p => p.1 = trunc11 r.time) = true
  · have hB := hiff.mp hA
    have hmemA : trunc11 r.time ∈ labelsOf A := (any_label_iff A _).mp hA
    have hmemB : trunc11 r.time ∈ labelsOf B := (any_label_iff B _).mp hB
    refine ⟨?_, ?_, ?_⟩
    · rw [labelsOf_gtWrite_of_mem b1 A r hmemA, labelsOf_gtWrite_of_mem b2 B r hmemB, hl]
    · rw [latColList_gtWrite_present b1 A r hA, latColList_gtWrite_present b2 B r hB,
        hl, hlat]
    · rw [longColList_gtWrite_present b1 A r hA, longColList_gtWrite_present b2 B r hB,
        hl, hlong]
  · have hB : ¬ B.any (fun p => p.1 = trunc11 r.time) = true := fun h => hA (hiff.mpr h)
    have hmemA : trunc11 r.time ∉ labelsOf A := fun h => hA ((any_label_iff A _).mpr h)
    have hmemB : trunc11 r.time ∉ labelsOf B := fun h => hB ((any_label_iff B _).mpr h)
    refine ⟨?_, ?_, ?_⟩
    · rw [labelsOf_gtWrite_of_not_mem b1 A r hmemA, labelsOf_gtWrite_of_not_mem b2 B r hmemB,
        hl]
    · rw [latColList_gtWrite_absent b1 A r hA, latColList_gtWrite_absent b2 B r hB, hlat]
    · rw [longColList_gtWrite_absent b1 A r hA, longColList_gtWrite_absent b2 B r hB, hlong]

theorem foldl_gtWrite_congr {β γ S : Type} (b1 : β) (b2 : γ) (gtl : List (GTRec S)) :
    ∀ (A : ATable β S) (B : ATable γ S),
      labelsOf A = labelsOf B → latColList A = latColList B →
      longColList A = longColList B →
      labelsOf (gtl.foldl (gtWrite b1) A) = labelsOf (gtl.foldl (gtWrite b2) B) ∧
      latColList (gtl.foldl (gtWrite b1) A) = latColList (gtl.foldl (gtWrite b2) B) ∧
      longColList (gtl.foldl (gtWrite b1) A) = longColList (gtl.foldl (gtWrite b2) B) := by
  induction gtl with
  | nil => exact fun A B h1 h2 h3 => ⟨h1, h2, h3⟩
  | cons r rs ih =>
    intro A B h1 h2 h3
    obtain ⟨g1, g2, g3⟩ := gtWrite_congr b1 b2 r h1 h2 h3
    simpa using ih (gtWrite b1 A r) (gtWrite b2 B r) g1 g2 g3

theorem filter_label_congr {β γ S : Type} (p : String → Bool) :
    ∀ (A : ATable β S) (B : ATable γ S),
      labelsOf A = labelsOf B → latColList A = latColList B →
      longColList A = longColList B →
      labelsOf (A.filter (fun q => p q.1)) = labelsOf (B.filter (fun q => p q.1)) ∧
      latColList (A.filter (fun q => p q.1)) = latColList (B.filter (fun q => p q.1)) ∧
      longColList (A.filter (fun q => p q.1)) = longColList (B.filter (fun q => p q.1)) := by
  intro A
  induction A with
  | nil =>
    intro B h1 _ _
    have hB : B = [] := by
      cases B with
      | nil => rfl
      | cons y ys => simp [labelsOf] at h1
    subst hB
    exact ⟨rfl, rfl, rfl⟩
  | cons x xs ih =>
    intro B h1 h2 h3
    cases B with
    | nil => simp [labelsOf] at h1
    | cons y ys =>
      simp only [labelsOf, List.map_cons, List.cons.injEq] at h1
      simp only [latColList, List.map_cons, List.cons.injEq] at h2
      simp only [longColList, List.map_cons, List.cons.injEq] at h3
      obtain ⟨hx1, hxs1⟩ := h1
      obtain ⟨hx2, hxs2⟩ := h2
      obtain ⟨hx3, hxs3⟩ := h3
      obtain ⟨i1, i2, i3⟩ := ih ys hxs1 hxs2 hxs3
      cases hpx : p x.1 with
      | true =>
        have hpy : p y.1 = true := by rw [← hx1]; exact hpx
        simp only [List.filter_cons, hpx, hpy, if_true]
        refine ⟨?_, ?_, ?_⟩
        · simp only [labelsOf, List.map_cons]
          simp only [labelsOf] at i1
          rw [hx1, i1]
        · simp only [latColList, List.map_cons]
          simp only [latColList] at i2
          rw [hx2, i2]
        · simp only [longColList, List.map_cons]
          simp only [longColList] at i3
          rw [hx3, i3]
      | false =>
        have hpy : p y.1 = false := by rw [← hx1]; exact hpx
        simp only [List.filter_cons, hpx, hpy]
        exact ⟨i1, i2, i3⟩

theorem labelsOf_trimTable {β S : Type} (a b : String) (T : ATable β S) :
    labelsOf (trimTable a b T) =
      ((labelsOf T).filter (fun t => strLe a t)).filter (fun t => strLe t b) := by
  calc labelsOf ((T.filter (fun p => strLe a p.1)).filter (fun p => strLe p.1 b))
      = (labelsOf (T.filter (fun p => strLe a p.1))).filter (fun t => strLe t b) :=
        labelsOf_filter (fun t => strLe t b) _
    _ = ((labelsOf T).filter (fun t => strLe a t)).filter (fun t => strLe t b) :=
        congrArg (fun L => L.filter (fun t => strLe t b))
          (labelsOf_filter (fun t => strLe a t) T)

theorem trimTable_congr {β γ S : Type} (a b : String) {A : ATable β S} {B : ATable γ S}
    (h1 : labelsOf A = labelsOf B) (h2 : latColList A = latColList B)
    (h3 : longColList A = longColList B) :
    labelsOf (trimTable a b A) = labelsOf (trimTable a b B) ∧
    latColList (trimTable a b A) = latColList (trimTable a b B) ∧
    longColList (trimTable a b A) = longColList (trimTable a b B) := by
  unfold trimTable
  obtain ⟨f1, f2, f3⟩ := filter_label_congr (fun t => strLe a t) A B h1 h2 h3
  exact filter_label_congr (fun t => strLe t b) _ _ f1 f2 f3

/-! ### The interpolation steps preserve labels and act column-wise -/

theorem labelsOf_interpolateFrameA {S : Type} [Field S] (T : ATable (SRow S) S) :
    labelsOf (interpolateFrameA T) = labelsOf T := by
  unfold labelsOf interpolateFrameA
  rw [List.map_map]
  have := map_getD_range T ("", blankSRow, none, none) (fun p => p.1)
  simpa using this

theorem latColList_interpolateFrameA {S : Type} [Field S] (T : ATable (SRow S) S) :
    latColList (interpolateFrameA T) = interpList (latColList T) := by
  have h2 : (List.range (interpList (latColList T)).length).map
      (fun i => (interpList (latColList T)).getD i none) = interpList (latColList T) := by
    have := map_getD_range (interpList (latColList T)) none id
    simpa using this
  have hlen : (interpList (latColList T)).length = T.length := by
    rw [interpList_length]; simp [latColList]
  rw [← h2, hlen]
  unfold latColList interpolateFrameA
  rw [List.map_map]
  rfl

theorem longColList_interpolateFrameA {S : Type} [Field S] (T : ATable (SRow S) S) :
    longColList (interpolateFrameA T) = interpList (longColList T) := by
  have h2 : (List.range (interpList (longColList T)).length).map
      (fun i => (interpList (longColList T)).getD i none) = interpList (longColList T) := by
    have := map_getD_range (interpList (longColList T)) none id
    simpa using this
  have hlen : (interpList (longColList T)).length = T.length := by
    rw [interpList_length]; simp [longColList]
  rw [← h2, hlen]
  unfold longColList interpolateFrameA
  rw [List.map_map]
  rfl

theorem labelsOf_interpolateLatLong {S : Type} [Field S] (T : ATable (WRow S) S) :
    labelsOf (interpolateLatLong T) = labelsOf T := by
  unfold labelsOf interpolateLatLong
  rw [List.map_map]
  have := map_getD_range T ("", blankWRow, none, none) (fun p => p.1)
  simpa using this

theorem latColList_interpolateLatLong {S : Type} [Field S] (T : ATable (WRow S) S) :
    latColList (interpolateLatLong T) = interpList (latColList T) := by
  have h2 : (List.range (interpList (latColList T)).length).map
      (fun i => (interpList (latColList T)).getD i none) = interpList (latColList T) := by
    have := map_getD_range (interpList (latColList T)) none id
    simpa using this
  have hlen : (interpList (latColList T)).length = T.length := by
    rw [interpList_length]; simp [latColList]
  rw [← h2, hlen]
  unfold latColList interpolateLatLong
  rw [List.map_map]
  rfl

theorem longColList_interpolateLatLong {S : Type} [Field S] (T : ATable (WRow S) S) :
    longColList (interpolateLatLong T) = interpList (longColList T) := by
  have h2 : (List.range (interpList (longColList T)).length).map
      (fun i => (interpList (longColList T)).getD i none) = interpList (longColList T) := by
    have := map_getD_range (interpList (longColList T)) none id
    simpa using this
  have hlen : (interpList (longColList T)).length = T.length := by
    rw [interpList_length]; simp [longColList]
  rw [← h2, hlen]
  unfold longColList interpolateLatLong
  rw [List.map_map]
  rfl

/-! ### C5: the two attach / trim / interpolate implementations agree -/

/-- C5: on a wifi table with the same timestamp index and the same ground
truth, the wifi pipeline's location step (before its sufficiency filter)
produces exactly the same index and the same lat and long columns, defined
cells and interpolated values alike, as the sensor-path aligner. -/
theorem claim_C5 {S : Type} [Field S] (sensors_df : List (String × SRow S))
    (wifi_df : List (String × WRow S)) (gt : List (GTRec S))
    (hidx : labelsOf sensors_df = labelsOf wifi_df) :
    (imu_sensor_and_position_generator sensors_df gt).map
        (fun T => (labelsOf T, latColList T, longColList T)) =
      (wifi_latlong_step wifi_df gt).map
        (fun T => (labelsOf T, latColList T, longColList T)) := by
  cases gt with
  | nil => rfl
  | cons g0 grest =>
    have hlen : sensors_df.length = wifi_df.length := by
      have := congrArg List.length hidx
      simpa [labelsOf] using this
    have h1 : labelsOf (addLatLongCols (S := S) sensors_df)
        = labelsOf (addLatLongCols (S := S) wifi_df) := by
      rw [labelsOf_addLatLongCols, labelsOf_addLatLongCols, hidx]
    have h2 : latColList (addLatLongCols (S := S) sensors_df)
        = latColList (addLatLongCols (S := S) wifi_df) := by
      rw [latColList_addLatLongCols, latColList_addLatLongCols, hlen]
    have h3 : longColList (addLatLongCols (S := S) sensors_df)
        = longColList (addLatLongCols (S := S) wifi_df) := by
      rw [longColList_addLatLongCols, longColList_addLatLongCols, hlen]
    obtain ⟨a1, a2, a3⟩ :=
      foldl_gtWrite_congr blankSRow blankWRow (g0 :: grest) _ _ h1 h2 h3
    obtain ⟨t1, t2, t3⟩ := trimTable_congr (trunc11 g0.time)
      (trunc11 ((g0 :: grest).getLast (List.cons_ne_nil g0 grest)).time) a1 a2 a3
    simp only [imu_sensor_and_position_generator, wifi_latlong_step, gtAttach, Except.map,
      Except.ok.injEq, Prod.mk.injEq]
    refine ⟨?_, ?_, ?_⟩
    · rw [labelsOf_interpolateFrameA, labelsOf_interpolateLatLong]
      exact t1
    · rw [latColList_interpolateFrameA, latColList_interpolateLatLong, t2]
    · rw [longColList_interpolateFrameA, longColList_interpolateLatLong, t3]

theorem claim_C5_witness :
    (imu_sensor_and_position_generator (S := ℚ)
        [("0:00:00:00", blankSRow), ("0:00:00:01", blankSRow)]
        [⟨"0:00:00:000", 1, 2⟩, ⟨"0:00:00:010", 3, 4⟩]).map
        (fun T => (labelsOf T, latColList T, longColList T)) =
      (wifi_latlong_step
        [("0:00:00:00", blankWRow), ("0:00:00:01", blankWRow)]
        [⟨"0:00:00:000", 1, 2⟩, ⟨"0:00:00:010", 3, 4⟩]).map
        (fun T => (labelsOf T, latColList T, longColList T)) := by
  exact claim_C5 _ _ _ (by decide)

/-! ### C4: trimming to the ground-truth span -/

/-- C4 is refuted on the code: the trimming comparisons are lexicographic on
the raw strings, not on parsed millisecond values.  With a genuine
calculate_ms_interval grid crossing the hour-9 / hour-10 boundary and a
ground truth whose truncated first and last timestamps both lie within the
grid's parsed-millisecond span, every row is trimmed away ("10:…" compares
below "9:…"), so no retained minimum or maximum exists at all. -/
theorem claim_C4_counterexample :
    calculate_ms_interval ["9:59:59:98", "10:00:00:01"] =
      some ["9:59:59:98", "9:59:59:99", "10:00:00:00", "10:00:00:01"] ∧
    (parseVal "9:59:59:98" ≤ parseVal (trunc11 "9:59:59:100") ∧
      parseVal (trunc11 "9:59:59:100") ≤ parseVal "10:00:00:01") ∧
    (parseVal "9:59:59:98" ≤ parseVal (trunc11 "10:00:00:010") ∧
      parseVal (trunc11 "10:00:00:010") ≤ parseVal "10:00:00:01") ∧
    (imu_sensor_and_position_generator (S := ℚ)
        (["9:59:59:98", "9:59:59:99", "10:00:00:00", "10:00:00:01"].map
          (fun t => (t, blankSRow)))
        [⟨"9:59:59:100", 1, 2⟩, ⟨"10:00:00:010", 3, 4⟩]).isOk = true ∧
    labelsOf ((imu_sensor_and_position_generator (S := ℚ)
        (["9:59:59:98", "9:59:59:99", "10:00:00:00", "10:00:00:01"].map
          (fun t => (t, blankSRow)))
        [⟨"9:59:59:100", 1, 2⟩, ⟨"10:00:00:010", 3, 4⟩]).toOption.getD []) = [] := by
  refine ⟨by decide, by decide, by decide, by decide, by decide⟩

/-- C4 (amended): when every truncated ground-truth timestamp matches a label
of the sensor table, the first truncated timestamp does not exceed the last
in parsed value, and the lexicographic comparisons against the two bounds
agree with the parsed-millisecond comparisons on the table's labels, the
aligner's retained index attains its minimum at the truncated first
ground-truth timestamp and its maximum at the truncated last one (minima and
maxima taken on parsed millisecond values). -/
theorem claim_C4_amended {S : Type} [Field S] (sensors_df : List (String × SRow S))
    (g0 : GTRec S) (grest : List (GTRec S)) (firstGT lastGT : String)
    (out : ATable (SRow S) S)
    (hfirst : firstGT = trunc11 g0.time)
    (hlast : lastGT = trunc11 ((g0 :: grest).getLast (List.cons_ne_nil g0 grest)).time)
    (hok : imu_sensor_and_position_generator sensors_df (g0 :: grest) = Except.ok out)
    (hmem : ∀ r ∈ g0 :: grest, trunc11 r.time ∈ labelsOf sensors_df)
    (hfl : parseVal firstGT ≤ parseVal lastGT)
    (hagree : ∀ t ∈ labelsOf sensors_df,
      (strLe firstGT t = true ↔ parseVal firstGT ≤ parseVal t) ∧
      (strLe t lastGT = true ↔ parseVal t ≤ parseVal lastGT)) :
    (∃ t1 ∈ labelsOf out, parseVal t1 = parseVal firstGT) ∧
    (∃ t2 ∈ labelsOf out, parseVal t2 = parseVal lastGT) ∧
    (∀ t ∈ labelsOf out, parseVal firstGT ≤ parseVal t ∧ parseVal t ≤ parseVal lastGT) := by
  have hout : out = interpolateFrameA (trimTable (trunc11 g0.time)
      (trunc11 ((g0 :: grest).getLast (List.cons_ne_nil g0 grest)).time)
      (gtAttach blankSRow sensors_df (g0 :: grest))) := by
    have h := hok
    simp only [imu_sensor_and_position_generator] at h
    exact (Except.ok.inj h).symm
  have hattach : labelsOf (gtAttach blankSRow sensors_df (g0 :: grest))
      = labelsOf sensors_df := by
    unfold gtAttach
    have hm2 : ∀ r ∈ g0 :: grest,
        trunc11 r.time ∈ labelsOf (addLatLongCols (S := S) sensors_df) := by
      intro r hr
      rw [labelsOf_addLatLongCols]
      exact hmem r hr
    rw [labelsOf_foldl_gtWrite blankSRow (g0 :: grest) _ hm2, labelsOf_addLatLongCols]
  have hlabels : labelsOf out =
      ((labelsOf sensors_df).filter (fun t => strLe firstGT t)).filter
        (fun t => strLe t lastGT) := by
    rw [hout, labelsOf_interpolateFrameA, labelsOf_trimTable, hattach, ← hfirst, ← hlast]
  have hmemout : ∀ t, t ∈ labelsOf out ↔
      (t ∈ labelsOf sensors_df ∧ strLe firstGT t = true ∧ strLe t lastGT = true) := by
    intro t
    simp only [hlabels, List.mem_filter]
    tauto
  have hmemfirst : firstGT ∈ labelsOf sensors_df := by
    rw [hfirst]
    exact hmem g0 (List.mem_cons_self _ _)
  have hmemlast : lastGT ∈ labelsOf sensors_df := by
    rw [hlast]
    exact hmem ((g0 :: grest).getLast (List.cons_ne_nil g0 grest)) (List.getLast_mem _)
  refine ⟨⟨firstGT, ?_, rfl⟩, ⟨lastGT, ?_, rfl⟩, ?_⟩
  · exact (hmemout firstGT).mpr ⟨hmemfirst,
      ((hagree firstGT hmemfirst).1).mpr le_rfl,
      ((hagree firstGT hmemfirst).2).mpr hfl⟩
  · exact (hmemout lastGT).mpr ⟨hmemlast,
      ((hagree lastGT hmemlast).1).mpr hfl,
      ((hagree lastGT hmemlast).2).mpr le_rfl⟩
  · intro t ht
    obtain ⟨htl, hp1, hp2⟩ := (hmemout t).mp ht
    exact ⟨((hagree t htl).1).mp hp1, ((hagree t htl).2).mp hp2⟩

theorem claim_C4_witness :
    parseVal "10:00:00:00" ≤ parseVal "10:00:00:01" ∧
    parseVal "10:00:00:01" ≤ parseVal "10:00:00:02" := by
  have h := claim_C4_amended (S := ℚ)
    (["10:00:00:00", "10:00:00:01", "10:00:00:02"].map (fun t => (t, blankSRow)))
    ⟨"10:00:00:000", 1, 1⟩ [⟨"10:00:00:020", 2, 2⟩] "10:00:00:00" "10:00:00:02" _
    (by decide) (by decide) (except_eq_ok_getD [] (by decide)) (by decide) (by decide)
    (by decide)
  exact h.2.2 "10:00:00:01" (by decide)

/-! ### C9: last-write-wins machinery -/

theorem latVal_map_upd_self {β S : Type} (r : GTRec S) (key : String) :
    ∀ (T : ATable β S), T.any (fun p => p.1 = key) = true →
      latVal (T.map (fun p => if p.1 = key then (p.1, p.2.1, some r.lat, some r.long) else p))
        key = some r.lat := by
  intro T
  induction T with
  | nil => intro h; simp at h
  | cons x xs ih =>
    intro h
    by_cases hx : x.1 = key
    · simp [latVal, hx]
    · have hxs : xs.any (fun p => p.1 = key) = true := by
        simpa [List.any_cons, hx] using h
      simp only [List.map_cons, if_neg hx, latVal, hx, if_false]
      exact ih hxs

theorem longVal_map_upd_self {β S : Type} (r : GTRec S) (key : String) :
    ∀ (T : ATable β S), T.any (fun p => p.1 = key) = true →
      longVal (T.map (fun p => if p.1 = key then (p.1, p.2.1, some r.lat, some r.long) else p))
        key = some r.long := by
  intro T
  induction T with
  | nil => intro h; simp at h
  | cons x xs ih =>
    intro h
    by_cases hx : x.1 = key
    · simp [longVal, hx]
    · have hxs : xs.any (fun p => p.1 = key) = true := by
        simpa [List.any_cons, hx] using h
      simp only [List.map_cons, if_neg hx, longVal, hx, if_false]
      exact ih hxs

theorem latVal_append_right {β S : Type} (L : ATable β S) (key : String) :
    ∀ (T : ATable β S), key ∉ labelsOf T → latVal (T ++ L) key = latVal L key := by
  intro T
  induction T with
  | nil => intro _; rfl
  | cons x xs ih =>
    intro h
    have hx : x.1 ≠ key := by
      intro he
      exact h (he ▸ List.mem_map_of_mem (fun p => p.1) (List.mem_cons_self x xs))
    simp only [List.cons_append, latVal, hx, if_false]
    exact ih (fun hm => h (List.mem_cons_of_mem _ hm))

theorem longVal_append_right {β S : Type} (L : ATable β S) (key : String) :
    ∀ (T : ATable β S), key ∉ labelsOf T → longVal (T ++ L) key = longVal L key := by
  intro T
  induction T with
  | nil => intro _; rfl
  | cons x xs ih =>
    intro h
    have hx : x.1 ≠ key := by
      intro he
      exact h (he ▸ List.mem_map_of_mem (fun p => p.1) (List.mem_cons_self x xs))
    simp only [List.cons_append, longVal, hx, if_false]
    exact ih (fun hm => h (List.mem_cons_of_mem _ hm))

theorem latVal_gtWrite_self {β S : Type} (b : β) (T : ATable β S) (r : GTRec S) :
    latVal (gtWrite b T r) (trunc11 r.time) = some r.lat := by
  unfold gtWrite
  by_cases h : T.any (fun p => p.1 = trunc11 r.time) = true
  · rw [if_pos h]
    exact latVal_map_upd_self r (trunc11 r.time) T h
  · rw [if_neg h]
    have hnm : trunc11 r.time ∉ labelsOf T := fun hm => h ((any_label_iff T _).mpr hm)
    rw [latVal_append_right _ _ T hnm]
    simp [latVal]

theorem longVal_gtWrite_self {β S : Type} (b : β) (T : ATable β S) (r : GTRec S) :
    longVal (gtWrite b T r) (trunc11 r.time) = some r.long := by
  unfold gtWrite
  by_cases h : T.any (fun p => p.1 = trunc11 r.time) = true
  · rw [if_pos h]
    exact longVal_map_upd_self r (trunc11 r.time) T h
  · rw [if_neg h]
    have hnm : trunc11 r.time ∉ labelsOf T := fun hm => h ((any_label_iff T _).mpr hm)
    rw [longVal_append_right _ _ T hnm]
    simp [longVal]

theorem latVal_map_upd_ne {β S : Type} (r : GTRec S) (key t : String) (h : t ≠ key) :
    ∀ (T : ATable β S),
      latVal (T.map (fun p => if p.1 = key then (p.1, p.2.1, some r.lat, some r.long) else p))
        t = latVal T t := by
  have hkt : ¬ (key = t) := fun he => h he.symm
  intro T
  induction T with
  | nil => rfl
  | cons x xs ih =>
    by_cases hx : x.1 = key
    · simp [latVal, hx, hkt, ih]
    · by_cases hxt : x.1 = t
      · simp [latVal, hx, hxt, h]
      · simp [latVal, hx, hxt, ih]

theorem longVal_map_upd_ne {β S : Type} (r : GTRec S) (key t : String) (h : t ≠ key) :
    ∀ (T : ATable β S),
      longVal (T.map (fun p => if p.1 = key then (p.1, p.2.1, some r.lat, some r.long) else p))
        t = longVal T t := by
  have hkt : ¬ (key = t) := fun he => h he.symm
  intro T
  induction T with
  | nil => rfl
  | cons x xs ih =>
    by_cases hx : x.1 = key
    · simp [longVal, hx, hkt, ih]
    · by_cases hxt : x.1 = t
      · simp [longVal, hx, hxt, h]
      · simp [longVal, hx, hxt, ih]

theorem latVal_append_single_ne {β S : Type} (x : String × β × Option S × Option S)
    (t : String) (h : ¬ (x.1 = t)) :
    ∀ (T : ATable β S), latVal (T ++ [x]) t = latVal T t := by
  intro T
  induction T with
  | nil => simp [latVal, h]
  | cons y ys ih =>
    by_cases hy : y.1 = t <;> simp [latVal, hy, ih]

theorem longVal_append_single_ne {β S : Type} (x : String × β × Option S × Option S)
    (t : String) (h : ¬ (x.1 = t)) :
    ∀ (T : ATable β S), longVal (T ++ [x]) t = longVal T t := by
  intro T
  induction T with
  | nil => simp [longVal, h]
  | cons y ys ih =>
    by_cases hy : y.1 = t <;> simp [longVal, hy, ih]

theorem latVal_gtWrite_ne {β S : Type} (b : β) (T : ATable β S) (r : GTRec S)
    (t : String) (h : t ≠ trunc11 r.time) :
    latVal (gtWrite b T r) t = latVal T t := by
  unfold gtWrite
  by_cases hany : T.any (fun p => p.1 = trunc11 r.time) = true
  · rw [if_pos hany]
    exact latVal_map_upd_ne r (trunc11 r.time) t h T
  · rw [if_neg hany]
    exact latVal_append_single_ne _ t (fun he => h he.symm) T

theorem longVal_gtWrite_ne {β S : Type} (b : β) (T : ATable β S) (r : GTRec S)
    (t : String) (h : t ≠ trunc11 r.time) :
    longVal (gtWrite b T r) t = longVal T t := by
  unfold gtWrite
  by_cases hany : T.any (fun p => p.1 = trunc11 r.time) = true
  · rw [if_pos hany]
    exact longVal_map_upd_ne r (trunc11 r.time) t h T
  · rw [if_neg hany]
    exact longVal_append_single_ne _ t (fun he => h he.symm) T

theorem latVal_foldl_gtWrite_ne {β S : Type} (b : β) (t : String) :
    ∀ (gtl : List (GTRec S)) (A : ATable β S), (∀ r ∈ gtl, trunc11 r.time ≠ t) →
      latVal (gtl.foldl (gtWrite b) A) t = latVal A t := by
  intro gtl
  induction gtl with
  | nil => intro A _; rfl
  | cons r rs ih =>
    intro A h
    rw [List.foldl_cons, ih (gtWrite b A r) (fun s hs => h s (List.mem_cons_of_mem r hs)),
      latVal_gtWrite_ne b A r t (fun he => h r (List.mem_cons_self r rs) he.symm)]

theorem longVal_foldl_gtWrite_ne {β S : Type} (b : β) (t : String) :
    ∀ (gtl : List (GTRec S)) (A : ATable β S), (∀ r ∈ gtl, trunc11 r.time ≠ t) →
      longVal (gtl.foldl (gtWrite b) A) t = longVal A t := by
  intro gtl
  induction gtl with
  | nil => intro A _; rfl
  | cons r rs ih =>
    intro A h
    rw [List.foldl_cons, ih (gtWrite b A r) (fun s hs => h s (List.mem_cons_of_mem r hs)),
      longVal_gtWrite_ne b A r t (fun he => h r (List.mem_cons_self r rs) he.symm)]

/-- Last-write-wins at the attach step: the row at a duplicated truncated
timestamp carries the lat value of the last record with that timestamp. -/
theorem latVal_gtAttach_lastdup {β S : Type} (b : β) (T : List (String × β))
    (l1 l2 : List (GTRec S)) (r : GTRec S)
    (hdup : ∀ s ∈ l2, trunc11 s.time ≠ trunc11 r.time) :
    latVal (gtAttach b T (l1 ++ r :: l2)) (trunc11 r.time) = some r.lat := by
  unfold gtAttach
  rw [List.foldl_append, List.foldl_cons,
    latVal_foldl_gtWrite_ne b (trunc11 r.time) l2 _ hdup]
  exact latVal_gtWrite_self b _ r

theorem longVal_gtAttach_lastdup {β S : Type} (b : β) (T : List (String × β))
    (l1 l2 : List (GTRec S)) (r : GTRec S)
    (hdup : ∀ s ∈ l2, trunc11 s.time ≠ trunc11 r.time) :
    longVal (gtAttach b T (l1 ++ r :: l2)) (trunc11 r.time) = some r.long := by
  unfold gtAttach
  rw [List.foldl_append, List.foldl_cons,
    longVal_foldl_gtWrite_ne b (trunc11 r.time) l2 _ hdup]
  exact longVal_gtWrite_self b _ r

theorem latVal_filter_label {β S : Type} (p : String → Bool) (T : ATable β S) (t : String)
    (hp : p t = true) : latVal (T.filter (fun q => p q.1)) t = latVal T t := by
  induction T with
  | nil => rfl
  | cons x xs ih =>
    cases hpx : p x.1 with
    | true =>
      by_cases hx : x.1 = t <;> simp [List.filter_cons, hpx, latVal, hx, hp, ih]
    | false =>
      have hx : x.1 ≠ t := by
        intro he
        rw [he, hp] at hpx
        exact Bool.noConfusion hpx
      simp [List.filter_cons, hpx, latVal, hx, ih]

theorem longVal_filter_label {β S : Type} (p : String → Bool) (T : ATable β S) (t : String)
    (hp : p t = true) : longVal (T.filter (fun q => p q.1)) t = longVal T t := by
  induction T with
  | nil => rfl
  | cons x xs ih =>
    cases hpx : p x.1 with
    | true =>
      by_cases hx : x.1 = t <;> simp [List.filter_cons, hpx, longVal, hx, hp, ih]
    | false =>
      have hx : x.1 ≠ t := by
        intro he
        rw [he, hp] at hpx
        exact Bool.noConfusion hpx
      simp [List.filter_cons, hpx, longVal, hx, ih]

theorem firstIdx?_lt_length {lbl : String} :
    ∀ {ls : List String} {i : ℕ}, firstIdx? lbl ls = some i → i < ls.length := by
  intro ls
  induction ls with
  | nil => intro i h; simp [firstIdx?] at h
  | cons t ts ih =>
    intro i h
    unfold firstIdx? at h
    by_cases ht : t = lbl
    · rw [if_pos ht] at h
      have : i = 0 := (Option.some.inj h).symm
      simp [this]
    · rw [if_neg ht] at h
      cases hrec : firstIdx? lbl ts with
      | none => rw [hrec] at h; simp at h
      | some j =>
        rw [hrec] at h
        simp only [Option.map_some'] at h
        have hij : i = j + 1 := (Option.some.inj h).symm
        have := ih hrec
        simp [hij, List.length_cons]
        omega

theorem latVal_eq_firstIdx {β S : Type} :
    ∀ (T : ATable β S) (t : String),
      latVal T t = match firstIdx? t (labelsOf T) with
        | some i => (latColList T).getD i none
        | none => none := by
  intro T
  induction T with
  | nil => intro t; rfl
  | cons x xs ih =>
    intro t
    by_cases hx : x.1 = t
    · simp [latVal, labelsOf, firstIdx?, hx, latColList]
    · simp only [latVal, labelsOf, List.map_cons, firstIdx?, if_neg hx, latColList, hx,
        if_false]
      rw [ih t]
      cases hrec : firstIdx? t (labelsOf xs) with
      | none => simp [labelsOf] at hrec; simp [hrec, labelsOf]
      | some j => simp [labelsOf] at hrec; simp [hrec, labelsOf, latColList]

theorem longVal_eq_firstIdx {β S : Type} :
    ∀ (T : ATable β S) (t : String),
      longVal T t = match firstIdx? t (labelsOf T) with
        | some i => (longColList T).getD i none
        | none => none := by
  intro T
  induction T with
  | nil => intro t; rfl
  | cons x xs ih =>
    intro t
    by_cases hx : x.1 = t
    · simp [longVal, labelsOf, firstIdx?, hx, longColList]
    · simp only [longVal, labelsOf, List.map_cons, firstIdx?, if_neg hx, longColList, hx,
        if_false]
      rw [ih t]
      cases hrec : firstIdx? t (labelsOf xs) with
      | none => simp [labelsOf] at hrec; simp [hrec, labelsOf]
      | some j => simp [labelsOf] at hrec; simp [hrec, labelsOf, longColList]

theorem latVal_interpolateFrameA {S : Type} [Field S] (T : ATable (SRow S) S)
    (t : String) {v : S} (h : latVal T t = some v) :
    latVal (interpolateFrameA T) t = some v := by
  rw [latVal_eq_firstIdx] at h ⊢
  rw [labelsOf_interpolateFrameA, latColList_interpolateFrameA]
  cases hidx : firstIdx? t (labelsOf T) with
  | none => rw [hidx] at h; simp at h
  | some i =>
    rw [hidx] at h
    have h2 : (latColList T).getD i none = some v := h
    have hlen : i < (latColList T).length := by
      have := firstIdx?_lt_length hidx
      simpa [labelsOf, latColList] using this
    show (interpList (latColList T)).getD i none = some v
    rw [getD_interpList hlen]
    exact interpCell_defined h2

theorem longVal_interpolateFrameA {S : Type} [Field S] (T : ATable (SRow S) S)
    (t : String) {v : S} (h : longVal T t = some v) :
    longVal (interpolateFrameA T) t = some v := by
  rw [longVal_eq_firstIdx] at h ⊢
  rw [labelsOf_interpolateFrameA, longColList_interpolateFrameA]
  cases hidx : firstIdx? t (labelsOf T) with
  | none => rw [hidx] at h; simp at h
  | some i =>
    rw [hidx] at h
    have h2 : (longColList T).getD i none = some v := h
    have hlen : i < (longColList T).length := by
      have := firstIdx?_lt_length hidx
      simpa [labelsOf, longColList] using this
    show (interpList (longColList T)).getD i none = some v
    rw [getD_interpList hlen]
    exact interpCell_defined h2

/-! ### C9: earlier duplicates' values do not influence the output -/

theorem agree_labels {β S : Type} (t : String) :
    ∀ {A B : ATable β S}, List.Forall₂ (AgreeRel t) A B → labelsOf A = labelsOf B := by
  intro A B h
  induction h with
  | nil => rfl
  | cons hpq _ ih =>
    simp only [labelsOf, List.map_cons]
    simp only [labelsOf] at ih
    rw [hpq.1, ih]

theorem agree_eq_of_not_mem {β S : Type} (t : String) :
    ∀ {A B : ATable β S}, List.Forall₂ (AgreeRel t) A B → t ∉ labelsOf A → A = B := by
  intro A B h
  induction h with
  | nil => intro _; rfl
  | cons hpq _ ih =>
    rename_i a₁ a₂ l₁ l₂ _
    intro hnm
    have hp1 : a₁.1 ≠ t := by
      intro he
      exact hnm (by simp [labelsOf, he])
    obtain ⟨h1, h2, h3⟩ := hpq
    have hhead : a₁ = a₂ := Prod.ext h1 (Prod.ext h2 (h3 hp1))
    rw [hhead, ih (fun hm => hnm (by simp [labelsOf] at hm ⊢; exact Or.inr hm))]

theorem forall₂_map_same {α β' : Type} {R : β' → β' → Prop} (f g : α → β')
    (l : List α) (h : ∀ x ∈ l, R (f x) (g x)) : List.Forall₂ R (l.map f) (l.map g) := by
  induction l with
  | nil => exact List.Forall₂.nil
  | cons x xs ih =>
    exact List.Forall₂.cons (h x (List.mem_cons_self x xs))
      (ih fun y hy => h y (List.mem_cons_of_mem x hy))

theorem map_upd_eq_of_agree {β S : Type} (r : GTRec S)
    {A B : ATable β S} (h : List.Forall₂ (AgreeRel (trunc11 r.time)) A B) :
    A.map (fun p => if p.1 = trunc11 r.time then (p.1, p.2.1, some r.lat, some r.long) else p)
      = B.map (fun p =>
          if p.1 = trunc11 r.time then (p.1, p.2.1, some r.lat, some r.long) else p) := by
  induction h with
  | nil => rfl
  | cons hpq _ ih =>
    rename_i a₁ a₂ l₁ l₂ _
    obtain ⟨h1, h2, h3⟩ := hpq
    simp only [List.map_cons]
    rw [ih]
    by_cases hp1 : a₁.1 = trunc11 r.time
    · have hq1 : a₂.1 = trunc11 r.time := by rw [← h1]; exact hp1
      rw [if_pos hp1, if_pos hq1, h1, h2]
    · have hq1 : ¬ a₂.1 = trunc11 r.time := fun he => hp1 (by rw [h1]; exact he)
      rw [if_neg hp1, if_neg hq1, Prod.ext h1 (Prod.ext h2 (h3 hp1))]

theorem gtWrite_preserves_agree {β S : Type} (b : β) (t : String) (s : GTRec S)
    {A B : ATable β S} (h : List.Forall₂ (AgreeRel t) A B) :
    List.Forall₂ (AgreeRel t) (gtWrite b A s) (gtWrite b B s) := by
  have hlab := agree_labels t h
  unfold gtWrite
  by_cases hA : A.any (fun p => p.1 = trunc11 s.time) = true
  · have hB : B.any (fun p => p.1 = trunc11 s.time) = true := by
      rw [any_label_iff, ← hlab]
      exact (any_label_iff A _).mp hA
    rw [if_pos hA, if_pos hB]
    clear hA hB hlab
    induction h with
    | nil => exact List.Forall₂.nil
    | cons hpq _ ih =>
      rename_i a₁ a₂ l₁ l₂ _
      obtain ⟨h1, h2, h3⟩ := hpq
      simp only [List.map_cons]
      refine List.Forall₂.cons ?_ ih
      by_cases hp1 : a₁.1 = trunc11 s.time
      · have hq1 : a₂.1 = trunc11 s.time := by rw [← h1]; exact hp1
        rw [if_pos hp1, if_pos hq1]
        exact ⟨h1, h2, fun _ => rfl⟩
      · have hq1 : ¬ a₂.1 = trunc11 s.time := fun he => hp1 (by rw [h1]; exact he)
        rw [if_neg hp1, if_neg hq1]
        exact ⟨h1, h2, h3⟩
  · have hB : ¬ B.any (fun p => p.1 = trunc11 s.time) = true := by
      intro hb
      exact hA (by rw [any_label_iff, hlab]; exact (any_label_iff B _).mp hb)
    rw [if_neg hA, if_neg hB]
    exact List.rel_append h
      (List.Forall₂.cons ⟨rfl, rfl, fun _ => rfl⟩ List.Forall₂.nil)

theorem gtWrite_collapse {β S : Type} (b : β) (s : GTRec S)
    {A B : ATable β S} (h : List.Forall₂ (AgreeRel (trunc11 s.time)) A B) :
    gtWrite b A s = gtWrite b B s := by
  have hlab := agree_labels (trunc11 s.time) h
  unfold gtWrite
  by_cases hA : A.any (fun p => p.1 = trunc11 s.time) = true
  · have hB : B.any (fun p => p.1 = trunc11 s.time) = true := by
      rw [any_label_iff, ← hlab]
      exact (any_label_iff A _).mp hA
    rw [if_pos hA, if_pos hB]
    exact map_upd_eq_of_agree s h
  · have hB : ¬ B.any (fun p => p.1 = trunc11 s.time) = true := by
      intro hb
      exact hA (by rw [any_label_iff, hlab]; exact (any_label_iff B _).mp hb)
    rw [if_neg hA, if_neg hB,
      agree_eq_of_not_mem _ h (fun hm => hA ((any_label_iff A _).mpr hm))]

theorem foldl_gtWrite_agree {β S : Type} (b : β) (t : String) :
    ∀ (gtl : List (GTRec S)) (A B : ATable β S),
      List.Forall₂ (AgreeRel t) A B → (∃ s ∈ gtl, trunc11 s.time = t) →
      gtl.foldl (gtWrite b) A = gtl.foldl (gtWrite b) B := by
  intro gtl
  induction gtl with
  | nil =>
    intro A B _ hw
    obtain ⟨s, hs, _⟩ := hw
    simp at hs
  | cons s ss ih =>
    intro A B h hw
    rw [List.foldl_cons, List.foldl_cons]
    by_cases hst : trunc11 s.time = t
    · rw [gtWrite_collapse b s (by rw [hst]; exact h)]
    · apply ih _ _ (gtWrite_preserves_agree b t s h)
      obtain ⟨w, hw1, hw2⟩ := hw
      rcases List.mem_cons.mp hw1 with rfl | hw1
      · exact absurd hw2 hst
      · exact ⟨w, hw1, hw2⟩

theorem gtWrite_agree_init {β S : Type} (b : β) (A : ATable β S) (r0 : GTRec S)
    (lat0 long0 : S) :
    List.Forall₂ (AgreeRel (trunc11 r0.time))
      (gtWrite b A (GTRec.mk r0.time lat0 long0)) (gtWrite b A r0) := by
  have hrefl : List.Forall₂ (AgreeRel (trunc11 r0.time)) A A :=
    List.forall₂_same.mpr (fun x _ => ⟨rfl, rfl, fun _ => rfl⟩)
  unfold gtWrite
  by_cases hA : A.any (fun p => p.1 = trunc11 r0.time) = true
  · rw [if_pos hA, if_pos hA]
    apply forall₂_map_same
    intro x _
    by_cases hx : x.1 = trunc11 r0.time
    · rw [if_pos hx, if_pos hx]
      exact ⟨rfl, rfl, fun hne => absurd hx hne⟩
    · rw [if_neg hx, if_neg hx]
      exact ⟨rfl, rfl, fun _ => rfl⟩
  · rw [if_neg hA, if_neg hA]
    exact List.rel_append hrefl
      (List.Forall₂.cons ⟨rfl, rfl, fun hne => absurd rfl hne⟩ List.Forall₂.nil)

/-- Replacing the lat/long values of a ground-truth record that is followed
by a later record with the same truncated timestamp does not change the
aligner's output. -/
theorem imu_gen_rewrite_dup {S : Type} [Field S] (sensors_df : List (String × SRow S))
    (p1 p2 l2 : List (GTRec S)) (r0 r : GTRec S) (lat0 long0 : S)
    (htr : trunc11 r0.time = trunc11 r.time) :
    imu_sensor_and_position_generator sensors_df
        (p1 ++ GTRec.mk r0.time lat0 long0 :: (p2 ++ r :: l2)) =
      imu_sensor_and_position_generator sensors_df (p1 ++ r0 :: (p2 ++ r :: l2)) := by
  have hattach : gtAttach blankSRow sensors_df
      (p1 ++ GTRec.mk r0.time lat0 long0 :: (p2 ++ r :: l2))
      = gtAttach blankSRow sensors_df (p1 ++ r0 :: (p2 ++ r :: l2)) := by
    unfold gtAttach
    rw [List.foldl_append, List.foldl_append, List.foldl_cons, List.foldl_cons]
    apply foldl_gtWrite_agree blankSRow (trunc11 r0.time)
    · exact gtWrite_agree_init blankSRow _ r0 lat0 long0
    · exact ⟨r, by simp, htr.symm⟩
  cases p1 with
  | nil =>
    simp only [List.nil_append] at hattach ⊢
    simp only [imu_sensor_and_position_generator]
    have htail : (p2 ++ r :: l2) ≠ [] := by simp
    have hlast : (GTRec.mk r0.time lat0 long0 :: (p2 ++ r :: l2)).getLast
        (List.cons_ne_nil _ _) = (r0 :: (p2 ++ r :: l2)).getLast (List.cons_ne_nil _ _) := by
      rw [List.getLast_cons htail, List.getLast_cons htail]
    rw [hattach, hlast]
  | cons a p1' =>
    have hgl : ∀ (x : GTRec S) (h : (a :: (p1' ++ x :: (p2 ++ r :: l2))) ≠ []),
        (a :: (p1' ++ x :: (p2 ++ r :: l2))).getLast h
          = (r :: l2).getLast (List.cons_ne_nil r l2) := by
      intro x h
      have e1 : (a :: (p1' ++ x :: (p2 ++ r :: l2)))
          = ((a :: p1') ++ (x :: p2)) ++ (r :: l2) := by
        simp [List.append_assoc]
      have h3 : (a :: (p1' ++ x :: (p2 ++ r :: l2))).getLast? = (r :: l2).getLast? := by
        rw [e1, List.getLast?_append_of_ne_nil _ (List.cons_ne_nil r l2)]
      rw [List.getLast?_eq_getLast_of_ne_nil h,
        List.getLast?_eq_getLast_of_ne_nil (List.cons_ne_nil r l2)] at h3
      exact Option.some.inj h3
    simp only [List.cons_append] at hattach ⊢
    simp only [imu_sensor_and_position_generator]
    rw [hattach, hgl (GTRec.mk r0.time lat0 long0) (by simp), hgl r0 (by simp)]

/-! ### C9: last-write-wins on duplicate truncated timestamps -/

/-- C9: when a ground-truth record r is the last one carrying its truncated
timestamp, the aligner's output row at that timestamp (retained whenever the
timestamp lies between the trim bounds) carries r's lat and long, and
replacing the lat/long values of any earlier record with the same truncated
timestamp leaves the whole output unchanged. -/
theorem claim_C9 {S : Type} [Field S] (sensors_df : List (String × SRow S))
    (l1 l2 : List (GTRec S)) (r : GTRec S) (g0 glast : GTRec S)
    (out : ATable (SRow S) S)
    (hg0 : (l1 ++ r :: l2).head? = some g0)
    (hglast : (l1 ++ r :: l2).getLast? = some glast)
    (hok : imu_sensor_and_position_generator sensors_df (l1 ++ r :: l2) = Except.ok out)
    (hdup : ∀ s ∈ l2, trunc11 s.time ≠ trunc11 r.time)
    (hlo : strLe (trunc11 g0.time) (trunc11 r.time) = true)
    (hhi : strLe (trunc11 r.time) (trunc11 glast.time) = true) :
    latVal out (trunc11 r.time) = some r.lat ∧
    longVal out (trunc11 r.time) = some r.long ∧
    ∀ (p1 p2 : List (GTRec S)) (r0 : GTRec S) (lat0 long0 : S),
      l1 = p1 ++ r0 :: p2 → trunc11 r0.time = trunc11 r.time →
      imu_sensor_and_position_generator sensors_df
          (p1 ++ GTRec.mk r0.time lat0 long0 :: (p2 ++ r :: l2)) =
        imu_sensor_and_position_generator sensors_df (l1 ++ r :: l2) := by
  have hb : ∀ (p1 p2 : List (GTRec S)) (r0 : GTRec S) (lat0 long0 : S),
      l1 = p1 ++ r0 :: p2 → trunc11 r0.time = trunc11 r.time →
      imu_sensor_and_position_generator sensors_df
          (p1 ++ GTRec.mk r0.time lat0 long0 :: (p2 ++ r :: l2)) =
        imu_sensor_and_position_generator sensors_df (l1 ++ r :: l2) := by
    intro p1 p2 r0 lat0 long0 hl1 htr
    have hsplit : l1 ++ r :: l2 = p1 ++ r0 :: (p2 ++ r :: l2) := by
      rw [hl1]
      simp [List.append_assoc]
    rw [hsplit]
    exact imu_gen_rewrite_dup sensors_df p1 p2 l2 r0 r lat0 long0 htr
  cases hgt : l1 ++ r :: l2 with
  | nil =>
    rw [hgt] at hg0
    simp at hg0
  | cons gh gtail =>
    rw [hgt] at hg0 hglast hok
    have hgh : gh = g0 := by simpa using hg0
    have hgl : (gh :: gtail).getLast (List.cons_ne_nil gh gtail) = glast := by
      rw [List.getLast?_eq_getLast_of_ne_nil (List.cons_ne_nil gh gtail)] at hglast
      exact Option.some.inj hglast
    have hout : out = interpolateFrameA (trimTable (trunc11 gh.time)
        (trunc11 ((gh :: gtail).getLast (List.cons_ne_nil gh gtail)).time)
        (gtAttach blankSRow sensors_df (gh :: gtail))) := by
      have h2 := hok
      simp only [imu_sensor_and_position_generator] at h2
      exact (Except.ok.inj h2).symm
    refine ⟨?_, ?_, ?_⟩
    · rw [hout]
      apply latVal_interpolateFrameA
      have h1 : latVal (gtAttach blankSRow sensors_df (gh :: gtail)) (trunc11 r.time)
          = some r.lat := by
        rw [← hgt]
        exact latVal_gtAttach_lastdup blankSRow sensors_df l1 l2 r hdup
      have h2 : latVal ((gtAttach blankSRow sensors_df (gh :: gtail)).filter
          (fun q => strLe (trunc11 gh.time) q.1)) (trunc11 r.time) = some r.lat :=
        (latVal_filter_label (fun s => strLe (trunc11 gh.time) s) _ _
          (by rw [hgh]; exact hlo)).trans h1
      exact (latVal_filter_label
        (fun s => strLe s (trunc11 ((gh :: gtail).getLast (List.cons_ne_nil gh gtail)).time))
        _ _ (by rw [hgl]; exact hhi)).trans h2
    · rw [hout]
      apply longVal_interpolateFrameA
      have h1 : longVal (gtAttach blankSRow sensors_df (gh :: gtail)) (trunc11 r.time)
          = some r.long := by
        rw [← hgt]
        exact longVal_gtAttach_lastdup blankSRow sensors_df l1 l2 r hdup
      have h2 : longVal ((gtAttach blankSRow sensors_df (gh :: gtail)).filter
          (fun q => strLe (trunc11 gh.time) q.1)) (trunc11 r.time) = some r.long :=
        (longVal_filter_label (fun s => strLe (trunc11 gh.time) s) _ _
          (by rw [hgh]; exact hlo)).trans h1
      exact (longVal_filter_label
        (fun s => strLe s (trunc11 ((gh :: gtail).getLast (List.cons_ne_nil gh gtail)).time))
        _ _ (by rw [hgl]; exact hhi)).trans h2
    · intro p1 p2 r0 lat0 long0 hl1 htr
      rw [← hgt]
      exact hb p1 p2 r0 lat0 long0 hl1 htr

/-- Witness for claim C9: a concrete two-row sensor grid and a ground truth in
which the records at "10:00:00:000" and "10:00:00:001" share the truncated
timestamp "10:00:00:00"; the aligned output carries the later record's lat 1
and long 2 at that timestamp, and replacing the earlier record's values 9, 9
by 7, 8 leaves the aligner's output unchanged. -/
theorem claim_C9_witness :
    latVal ((imu_sensor_and_position_generator (S := ℚ)
        [("10:00:00:00", blankSRow), ("10:00:00:01", blankSRow)]
        [⟨"10:00:00:000", 9, 9⟩, ⟨"10:00:00:001", 1, 2⟩,
          ⟨"10:00:00:010", 3, 4⟩]).toOption.getD [])
      (trunc11 "10:00:00:001") = some 1 ∧
    longVal ((imu_sensor_and_position_generator (S := ℚ)
        [("10:00:00:00", blankSRow), ("10:00:00:01", blankSRow)]
        [⟨"10:00:00:000", 9, 9⟩, ⟨"10:00:00:001", 1, 2⟩,
          ⟨"10:00:00:010", 3, 4⟩]).toOption.getD [])
      (trunc11 "10:00:00:001") = some 2 ∧
    imu_sensor_and_position_generator (S := ℚ)
        [("10:00:00:00", blankSRow), ("10:00:00:01", blankSRow)]
        [⟨"10:00:00:000", 7, 8⟩, ⟨"10:00:00:001", 1, 2⟩, ⟨"10:00:00:010", 3, 4⟩] =
      imu_sensor_and_position_generator (S := ℚ)
        [("10:00:00:00", blankSRow), ("10:00:00:01", blankSRow)]
        [⟨"10:00:00:000", 9, 9⟩, ⟨"10:00:00:001", 1, 2⟩, ⟨"10:00:00:010", 3, 4⟩] := by
  have hok : imu_sensor_and_position_generator (S := ℚ)
      [("10:00:00:00", blankSRow), ("10:00:00:01", blankSRow)]
      ([⟨"10:00:00:000", 9, 9⟩] ++ ⟨"10:00:00:001", 1, 2⟩ :: [⟨"10:00:00:010", 3, 4⟩]) =
      Except.ok ((imu_sensor_and_position_generator (S := ℚ)
        [("10:00:00:00", blankSRow), ("10:00:00:01", blankSRow)]
        [⟨"10:00:00:000", 9, 9⟩, ⟨"10:00:00:001", 1, 2⟩,
          ⟨"10:00:00:010", 3, 4⟩]).toOption.getD []) :=
    except_eq_ok_getD [] (by decide)
  have h := claim_C9 [("10:00:00:00", blankSRow), ("10:00:00:01", blankSRow)]
    [⟨"10:00:00:000", 9, 9⟩] [⟨"10:00:00:010", 3, 4⟩] ⟨"10:00:00:001", 1, 2⟩
    ⟨"10:00:00:000", 9, 9⟩ ⟨"10:00:00:010", 3, 4⟩ _
    rfl rfl hok (by decide) (by decide) (by decide)
  exact ⟨h.1, h.2.1, h.2.2 [] [] ⟨"10:00:00:000", 9, 9⟩ 7 8 rfl (by decide)⟩

/-! ### C3: triad magnitude consistency -/

theorem axisCols_cases {tag : String} {cx cy cz ct : SCol}
    (h : axisCols tag = some (cx, cy, cz, ct)) :
    (cx = SCol.ax ∧ cy = SCol.ay ∧ cz = SCol.az ∧ ct = SCol.a_total) ∨
    (cx = SCol.gx ∧ cy = SCol.gy ∧ cz = SCol.gz ∧ ct = SCol.g_total) ∨
    (cx = SCol.mx ∧ cy = SCol.my ∧ cz = SCol.mz ∧ ct = SCol.m_total) := by
  unfold axisCols at h
  split_ifs at h
  · simp only [Option.some.injEq, Prod.mk.injEq] at h
    exact Or.inl ⟨h.1.symm, h.2.1.symm, h.2.2.1.symm, h.2.2.2.symm⟩
  · simp only [Option.some.injEq, Prod.mk.injEq] at h
    exact Or.inr (Or.inl ⟨h.1.symm, h.2.1.symm, h.2.2.1.symm, h.2.2.2.symm⟩)
  · simp only [Option.some.injEq, Prod.mk.injEq] at h
    exact Or.inr (Or.inr ⟨h.1.symm, h.2.1.symm, h.2.2.1.symm, h.2.2.2.symm⟩)

theorem setCell_of_any_true {S : Type} {df : STable S} {lbl : String} (c : SCol) (v : S)
    (h : df.any (fun p => p.1 = lbl) = true) :
    setCell df lbl c v
      = df.map (fun p => if p.1 = lbl then (p.1, updateRow p.2 c v) else p) := by
  unfold setCell
  rw [if_pos h]

theorem setCell_of_any_false {S : Type} {df : STable S} {lbl : String} (c : SCol) (v : S)
    (h : df.any (fun p => p.1 = lbl) = false) :
    setCell df lbl c v = df ++ [(lbl, updateRow blankSRow c v)] := by
  unfold setCell
  rw [if_neg (by simp [h])]

theorem any_setCell_self {S : Type} (df : STable S) (lbl : String) (c : SCol) (v : S) :
    (setCell df lbl c v).any (fun p => p.1 = lbl) = true := by
  cases h : df.any (fun p => p.1 = lbl) with
  | true =>
    rw [setCell_of_any_true c v h]
    rcases List.any_eq_true.mp h with ⟨p, hp, hpl⟩
    have hpl' : p.1 = lbl := of_decide_eq_true hpl
    refine List.any_eq_true.mpr ⟨(p.1, updateRow p.2 c v), ?_, by simp [hpl']⟩
    exact List.mem_map.mpr ⟨p, hp, by rw [if_pos hpl']⟩
  | false =>
    rw [setCell_of_any_false c v h]
    simp

theorem setCell_append_last {S : Type} {df : STable S} {lbl : String} (r : SRow S) (c : SCol)
    (v : S) (h : df.any (fun p => p.1 = lbl) = false) :
    setCell (df ++ [(lbl, r)]) lbl c v = df ++ [(lbl, updateRow r c v)] := by
  have ha : (df ++ [(lbl, r)]).any (fun p => p.1 = lbl) = true := by simp
  rw [setCell_of_any_true c v ha, List.map_append]
  have hdf : ∀ p ∈ df, (if p.1 = lbl then (p.1, updateRow p.2 c v) else p) = p := by
    intro p hp
    rw [if_neg]
    intro hc
    rw [List.any_eq_false] at h
    exact h p hp (by simp [hc])
  have h1 : df.map (fun p => if p.1 = lbl then (p.1, updateRow p.2 c v) else p) = df := by
    conv_rhs => rw [← List.map_id df]
    exact List.map_congr_left hdf
  rw [h1]
  simp

theorem writeElem_of_any_true {S : Type} [Field S] (sqrt : S → S) {df : STable S}
    {e : RawElem S} {cx cy cz ct : SCol} (hax : axisCols e.tag = some (cx, cy, cz, ct))
    (h : df.any (fun p => p.1 = e.st) = true) :
    writeElem sqrt df e = df.map (fun p => if p.1 = e.st then
      (p.1, updateRow (updateRow (updateRow (updateRow p.2 cx e.x) cy e.y) cz e.z) ct
        (sqrt (e.x ^ 2 + e.y ^ 2 + e.z ^ 2))) else p) := by
  simp only [writeElem, hax]
  rw [setCell_of_any_true ct (sqrt (e.x ^ 2 + e.y ^ 2 + e.z ^ 2))
    (any_setCell_self _ e.st cz e.z)]
  rw [setCell_of_any_true cz e.z (any_setCell_self _ e.st cy e.y)]
  rw [setCell_of_any_true cy e.y (any_setCell_self _ e.st cx e.x)]
  rw [setCell_of_any_true cx e.x h]
  rw [List.map_map, List.map_map, List.map_map]
  refine List.map_congr_left ?_
  intro p hp
  by_cases hpl : p.1 = e.st
  · simp [Function.comp, hpl]
  · simp [Function.comp, hpl]

theorem writeElem_of_any_false {S : Type} [Field S] (sqrt : S → S) {df : STable S}
    {e : RawElem S} {cx cy cz ct : SCol} (hax : axisCols e.tag = some (cx, cy, cz, ct))
    (h : df.any (fun p => p.1 = e.st) = false) :
    writeElem sqrt df e = df ++ [(e.st, updateRow (updateRow (updateRow (updateRow blankSRow
      cx e.x) cy e.y) cz e.z) ct (sqrt (e.x ^ 2 + e.y ^ 2 + e.z ^ 2)))] := by
  simp only [writeElem, hax]
  rw [setCell_of_any_false cx e.x h]
  rw [setCell_append_last _ cy e.y h]
  rw [setCell_append_last _ cz e.z h]
  rw [setCell_append_last _ ct (sqrt (e.x ^ 2 + e.y ^ 2 + e.z ^ 2)) h]

theorem triadConsistent_blank {S : Type} [Field S] (sqrt : S → S) :
    triadConsistent sqrt (blankSRow (S := S)) :=
  fun _ _ _ _ _ _ => Or.inl ⟨rfl, rfl, rfl, rfl⟩

theorem triadConsistent_quad {S : Type} [Field S] (sqrt : S → S) {r : SRow S}
    (hr : triadConsistent sqrt r) {tag : String} {cx cy cz ct : SCol}
    (hax : axisCols tag = some (cx, cy, cz, ct)) (x y z : S) :
    triadConsistent sqrt (updateRow (updateRow (updateRow (updateRow r cx x) cy y) cz z) ct
      (sqrt (x ^ 2 + y ^ 2 + z ^ 2))) := by
  intro tag' cx' cy' cz' ct' hax'
  rcases axisCols_cases hax with ⟨rfl, rfl, rfl, rfl⟩ | ⟨rfl, rfl, rfl, rfl⟩ |
      ⟨rfl, rfl, rfl, rfl⟩ <;>
    rcases axisCols_cases hax' with ⟨rfl, rfl, rfl, rfl⟩ | ⟨rfl, rfl, rfl, rfl⟩ |
      ⟨rfl, rfl, rfl, rfl⟩
  · exact Or.inr ⟨x, y, z, by simp [updateRow], by simp [updateRow], by simp [updateRow],
      by simp [updateRow]⟩
  · simpa [updateRow] using hr tag' _ _ _ _ hax'
  · simpa [updateRow] using hr tag' _ _ _ _ hax'
  · simpa [updateRow] using hr tag' _ _ _ _ hax'
  · exact Or.inr ⟨x, y, z, by simp [updateRow], by simp [updateRow], by simp [updateRow],
      by simp [updateRow]⟩
  · simpa [updateRow] using hr tag' _ _ _ _ hax'
  · simpa [updateRow] using hr tag' _ _ _ _ hax'
  · simpa [updateRow] using hr tag' _ _ _ _ hax'
  · exact Or.inr ⟨x, y, z, by simp [updateRow], by simp [updateRow], by simp [updateRow],
      by simp [updateRow]⟩

theorem triadConsistent_writeElem {S : Type} [Field S] (sqrt : S → S) (df : STable S)
    (e : RawElem S) (hdf : ∀ p ∈ df, triadConsistent sqrt p.2) :
    ∀ p ∈ writeElem sqrt df e, triadConsistent sqrt p.2 := by
  intro p hp
  cases hax : axisCols e.tag with
  | none =>
    simp only [writeElem, hax] at hp
    exact hdf p hp
  | some q =>
    obtain ⟨cx, cy, cz, ct⟩ := q
    cases h : df.any (fun q => q.1 = e.st) with
    | true =>
      rw [writeElem_of_any_true sqrt hax h] at hp
      rcases List.mem_map.mp hp with ⟨p0, hp0, rfl⟩
      by_cases hpl : p0.1 = e.st
      · rw [if_pos hpl]
        exact triadConsistent_quad sqrt (hdf p0 hp0) hax e.x e.y e.z
      · rw [if_neg hpl]
        exact hdf p0 hp0
    | false =>
      rw [writeElem_of_any_false sqrt hax h] at hp
      rcases List.mem_append.mp hp with hp0 | hp0
      · exact hdf p hp0
      · have hp1 : p = (e.st, updateRow (updateRow (updateRow (updateRow blankSRow cx e.x)
            cy e.y) cz e.z) ct (sqrt (e.x ^ 2 + e.y ^ 2 + e.z ^ 2))) := by
          simpa using hp0
        rw [hp1]
        exact triadConsistent_quad sqrt (triadConsistent_blank sqrt) hax e.x e.y e.z

theorem triadConsistent_foldl {S : Type} [Field S] (sqrt : S → S) (root : List (RawElem S))
    (df : STable S) (hdf : ∀ p ∈ df, triadConsistent sqrt p.2) :
    ∀ p ∈ root.foldl (writeElem sqrt) df, triadConsistent sqrt p.2 := by
  induction root generalizing df with
  | nil => simpa using hdf
  | cons e es ih =>
    rw [List.foldl_cons]
    exact ih (writeElem sqrt df e) (triadConsistent_writeElem sqrt df e hdf)

theorem triadConsistent_assemble {S : Type} [Field S] {sqrt : S → S} {root : List (RawElem S)}
    {P : STable S} (hP : assembleSensors sqrt root = some P) :
    ∀ p ∈ P, triadConsistent sqrt p.2 := by
  unfold assembleSensors at hP
  split_ifs at hP
  rcases Option.map_eq_some'.mp hP with ⟨ts, hts, hfold⟩
  rw [← hfold]
  refine triadConsistent_foldl sqrt root _ ?_
  intro p hp
  rcases List.mem_map.mp hp with ⟨t, ht, rfl⟩
  exact triadConsistent_blank sqrt

theorem pcell_lt {S : Type} {df : STable S} {i : ℕ} (h : i < df.length) (c : SCol) :
    pcell df i c = (df.get ⟨i, h⟩).2 c := by
  unfold pcell colList
  rw [List.getD_eq_getElem?_getD, List.getElem?_map, List.getElem?_eq_getElem h]
  rfl

theorem pcell_of_le {S : Type} {df : STable S} {i : ℕ} (h : df.length ≤ i) (c : SCol) :
    pcell df i c = none := by
  unfold pcell
  exact List.getD_eq_default _ _ (by rw [colList_length]; exact h)

theorem pcell_interpolateFrame {S : Type} [Field S] {df : STable S} {i : ℕ}
    (h : i < df.length) (c : SCol) :
    pcell (interpolateFrame df) i c = interpCell (colList df c) i := by
  unfold pcell
  rw [colList_interpolateFrame]
  exact getD_interpList (by rw [colList_length]; exact h)

/-- C3 is refuted on the interpolated output: with accelerometer readings
(3, 4, 0) and (3, -4, 0) at the two ends of a three-row grid, the middle
row's interpolated components are (3, 0, 0) while its interpolated magnitude
is the interpolation of sqrt(25) and sqrt(25), namely 5, and
sqrt(3^2 + 0^2 + 0^2) = 3 ≠ 5: all four cells of the a-triad are defined at
that row, yet the magnitude is not sqrt of the row's own components. -/
theorem claim_C3_counterexample :
    (xml_imu_sensors_converter (S := ℝ) Real.sqrt
        [⟨"a", "0:00:00:00", 3, 4, 0⟩, ⟨"a", "0:00:00:02", 3, -4, 0⟩]).isSome = true ∧
    cellVal ((xml_imu_sensors_converter (S := ℝ) Real.sqrt
        [⟨"a", "0:00:00:00", 3, 4, 0⟩, ⟨"a", "0:00:00:02", 3, -4, 0⟩]).getD [])
      "0:00:00:01" SCol.ax = some 3 ∧
    cellVal ((xml_imu_sensors_converter (S := ℝ) Real.sqrt
        [⟨"a", "0:00:00:00", 3, 4, 0⟩, ⟨"a", "0:00:00:02", 3, -4, 0⟩]).getD [])
      "0:00:00:01" SCol.ay = some 0 ∧
    cellVal ((xml_imu_sensors_converter (S := ℝ) Real.sqrt
        [⟨"a", "0:00:00:00", 3, 4, 0⟩, ⟨"a", "0:00:00:02", 3, -4, 0⟩]).getD [])
      "0:00:00:01" SCol.az = some 0 ∧
    cellVal ((xml_imu_sensors_converter (S := ℝ) Real.sqrt
        [⟨"a", "0:00:00:00", 3, 4, 0⟩, ⟨"a", "0:00:00:02", 3, -4, 0⟩]).getD [])
      "0:00:00:01" SCol.a_total = some 5 ∧
    Real.sqrt ((3 : ℝ) ^ 2 + (0 : ℝ) ^ 2 + (0 : ℝ) ^ 2) = 3 ∧ ((5 : ℝ) ≠ 3) := by
  have hsome : (xml_imu_sensors_converter (S := ℝ) Real.sqrt
      [⟨"a", "0:00:00:00", 3, 4, 0⟩, ⟨"a", "0:00:00:02", 3, -4, 0⟩]).isSome = true := rfl
  have hax3 : cellVal ((xml_imu_sensors_converter (S := ℝ) Real.sqrt
      [⟨"a", "0:00:00:00", 3, 4, 0⟩, ⟨"a", "0:00:00:02", 3, -4, 0⟩]).getD [])
      "0:00:00:01" SCol.ax = some ((3 : ℝ) + ((3 : ℝ) - (3 : ℝ)) *
        ((((1 : ℕ) : ℝ) - ((0 : ℕ) : ℝ)) / (((2 : ℕ) : ℝ) - ((0 : ℕ) : ℝ)))) := rfl
  have hay3 : cellVal ((xml_imu_sensors_converter (S := ℝ) Real.sqrt
      [⟨"a", "0:00:00:00", 3, 4, 0⟩, ⟨"a", "0:00:00:02", 3, -4, 0⟩]).getD [])
      "0:00:00:01" SCol.ay = some ((4 : ℝ) + ((-4 : ℝ) - (4 : ℝ)) *
        ((((1 : ℕ) : ℝ) - ((0 : ℕ) : ℝ)) / (((2 : ℕ) : ℝ) - ((0 : ℕ) : ℝ)))) := rfl
  have haz3 : cellVal ((xml_imu_sensors_converter (S := ℝ) Real.sqrt
      [⟨"a", "0:00:00:00", 3, 4, 0⟩, ⟨"a", "0:00:00:02", 3, -4, 0⟩]).getD [])
      "0:00:00:01" SCol.az = some ((0 : ℝ) + ((0 : ℝ) - (0 : ℝ)) *
        ((((1 : ℕ) : ℝ) - ((0 : ℕ) : ℝ)) / (((2 : ℕ) : ℝ) - ((0 : ℕ) : ℝ)))) := rfl
  have hat3 : cellVal ((xml_imu_sensors_converter (S := ℝ) Real.sqrt
      [⟨"a", "0:00:00:00", 3, 4, 0⟩, ⟨"a", "0:00:00:02", 3, -4, 0⟩]).getD [])
      "0:00:00:01" SCol.a_total
      = some (Real.sqrt ((3 : ℝ) ^ 2 + (4 : ℝ) ^ 2 + (0 : ℝ) ^ 2) +
        (Real.sqrt ((3 : ℝ) ^ 2 + (-4 : ℝ) ^ 2 + (0 : ℝ) ^ 2) -
          Real.sqrt ((3 : ℝ) ^ 2 + (4 : ℝ) ^ 2 + (0 : ℝ) ^ 2)) *
        ((((1 : ℕ) : ℝ) - ((0 : ℕ) : ℝ)) / (((2 : ℕ) : ℝ) - ((0 : ℕ) : ℝ)))) := rfl
  have h5a : Real.sqrt ((3 : ℝ) ^ 2 + (4 : ℝ) ^ 2 + (0 : ℝ) ^ 2) = 5 := by
    rw [show (3 : ℝ) ^ 2 + (4 : ℝ) ^ 2 + (0 : ℝ) ^ 2 = 5 ^ 2 by norm_num]
    exact Real.sqrt_sq (by norm_num)
  have h5b : Real.sqrt ((3 : ℝ) ^ 2 + (-4 : ℝ) ^ 2 + (0 : ℝ) ^ 2) = 5 := by
    rw [show (3 : ℝ) ^ 2 + (-4 : ℝ) ^ 2 + (0 : ℝ) ^ 2 = 5 ^ 2 by norm_num]
    exact Real.sqrt_sq (by norm_num)
  refine ⟨hsome, ?_, ?_, ?_, ?_, ?_, by norm_num⟩
  · rw [hax3]
    norm_num
  · rw [hay3]
    norm_num
  · rw [haz3]
    norm_num
  · rw [hat3, h5a, h5b]
    norm_num
  · rw [show (3 : ℝ) ^ 2 + (0 : ℝ) ^ 2 + (0 : ℝ) ^ 2 = 3 ^ 2 by norm_num]
    exact Real.sqrt_sq (by norm_num)

/-- C3 (amended): in the assembled table P before interpolation, every row of
every triad either has all four of its cells undefined or carries defined
components x, y, z together with magnitude sqrt(x^2+y^2+z^2) of those same
components; and in the converter's final (interpolated) table T, a triad's
magnitude cell is undefined exactly when one of its three component cells is
undefined.  The original claim's magnitude equation fails in T itself: at an
interpolated row the magnitude cell is the linear interpolation of the
neighbouring magnitudes, not sqrt of the row's interpolated components. -/
theorem claim_C3_amended {S : Type} [Field S] (sqrt : S → S) (root : List (RawElem S))
    (P T : STable S) (hP : assembleSensors sqrt root = some P)
    (hT : xml_imu_sensors_converter sqrt root = some T) (tag : String)
    (cx cy cz ct : SCol) (hax : axisCols tag = some (cx, cy, cz, ct)) (i : ℕ)
    (hi : i < P.length) :
    ((pcell P i cx = none ∧ pcell P i cy = none ∧ pcell P i cz = none ∧
        pcell P i ct = none) ∨
      ∃ x y z, pcell P i cx = some x ∧ pcell P i cy = some y ∧ pcell P i cz = some z ∧
        pcell P i ct = some (sqrt (x ^ 2 + y ^ 2 + z ^ 2))) ∧
    (pcell T i ct = none ↔
      (pcell T i cx = none ∨ pcell T i cy = none ∨ pcell T i cz = none)) := by
  have hOK := triadConsistent_assemble hP
  have hT' : T = interpolateFrame P := by
    unfold xml_imu_sensors_converter at hT
    rw [hP] at hT
    simp only [Option.map_some'] at hT
    exact (Option.some.inj hT).symm
  have hrow : ∀ j (hj : j < P.length), triadConsistent sqrt (P.get ⟨j, hj⟩).2 :=
    fun j hj => hOK (P.get ⟨j, hj⟩) (List.get_mem P j hj)
  have hpat : ∀ j, ((pcell P j ct = none ↔ pcell P j cx = none) ∧
      (pcell P j ct = none ↔ pcell P j cy = none) ∧
      (pcell P j ct = none ↔ pcell P j cz = none)) := by
    intro j
    rcases Nat.lt_or_ge j P.length with hj | hj
    · rcases hrow j hj tag cx cy cz ct hax with ⟨h1, h2, h3, h4⟩ | ⟨x, y, z, h1, h2, h3, h4⟩
      · rw [pcell_lt hj cx, pcell_lt hj cy, pcell_lt hj cz, pcell_lt hj ct, h1, h2, h3, h4]
        simp
      · rw [pcell_lt hj cx, pcell_lt hj cy, pcell_lt hj cz, pcell_lt hj ct, h1, h2, h3, h4]
        simp
    · rw [pcell_of_le hj cx, pcell_of_le hj cy, pcell_of_le hj cz, pcell_of_le hj ct]
      simp
  refine ⟨?_, ?_⟩
  · rcases hrow i hi tag cx cy cz ct hax with ⟨h1, h2, h3, h4⟩ | ⟨x, y, z, h1, h2, h3, h4⟩
    · exact Or.inl ⟨by rw [pcell_lt hi cx]; exact h1, by rw [pcell_lt hi cy]; exact h2,
        by rw [pcell_lt hi cz]; exact h3, by rw [pcell_lt hi ct]; exact h4⟩
    · exact Or.inr ⟨x, y, z, by rw [pcell_lt hi cx]; exact h1, by rw [pcell_lt hi cy]; exact h2,
        by rw [pcell_lt hi cz]; exact h3, by rw [pcell_lt hi ct]; exact h4⟩
  · rw [hT']
    rw [pcell_interpolateFrame hi cx, pcell_interpolateFrame hi cy,
      pcell_interpolateFrame hi cz, pcell_interpolateFrame hi ct]
    rw [interpCell_eq_none_iff, interpCell_eq_none_iff, interpCell_eq_none_iff,
      interpCell_eq_none_iff]
    constructor
    · intro h
      exact Or.inl (fun j hj => (hpat j).1.mp (h j hj))
    · rintro (h | h | h)
      · exact fun j hj => (hpat j).1.mpr (h j hj)
      · exact fun j hj => (hpat j).2.1.mpr (h j hj)
      · exact fun j hj => (hpat j).2.2.mpr (h j hj)

theorem claim_C3_witness :
    ((pcell ((assembleSensors (S := ℚ) (fun q => q) [⟨"a", "0:00:00:00", 1, 2, 3⟩]).getD [])
        0 SCol.ax = none ∧
      pcell ((assembleSensors (S := ℚ) (fun q => q) [⟨"a", "0:00:00:00", 1, 2, 3⟩]).getD [])
        0 SCol.ay = none ∧
      pcell ((assembleSensors (S := ℚ) (fun q => q) [⟨"a", "0:00:00:00", 1, 2, 3⟩]).getD [])
        0 SCol.az = none ∧
      pcell ((assembleSensors (S := ℚ) (fun q => q) [⟨"a", "0:00:00:00", 1, 2, 3⟩]).getD [])
        0 SCol.a_total = none) ∨
      ∃ x y z,
        pcell ((assembleSensors (S := ℚ) (fun q => q) [⟨"a", "0:00:00:00", 1, 2, 3⟩]).getD [])
          0 SCol.ax = some x ∧
        pcell ((assembleSensors (S := ℚ) (fun q => q) [⟨"a", "0:00:00:00", 1, 2, 3⟩]).getD [])
          0 SCol.ay = some y ∧
        pcell ((assembleSensors (S := ℚ) (fun q => q) [⟨"a", "0:00:00:00", 1, 2, 3⟩]).getD [])
          0 SCol.az = some z ∧
        pcell ((assembleSensors (S := ℚ) (fun q => q) [⟨"a", "0:00:00:00", 1, 2, 3⟩]).getD [])
          0 SCol.a_total = some (x ^ 2 + y ^ 2 + z ^ 2)) ∧
    (pcell ((xml_imu_sensors_converter (S := ℚ) (fun q => q)
        [⟨"a", "0:00:00:00", 1, 2, 3⟩]).getD []) 0 SCol.a_total = none ↔
      (pcell ((xml_imu_sensors_converter (S := ℚ) (fun q => q)
          [⟨"a", "0:00:00:00", 1, 2, 3⟩]).getD []) 0 SCol.ax = none ∨
        pcell ((xml_imu_sensors_converter (S := ℚ) (fun q => q)
          [⟨"a", "0:00:00:00", 1, 2, 3⟩]).getD []) 0 SCol.ay = none ∨
        pcell ((xml_imu_sensors_converter (S := ℚ) (fun q => q)
          [⟨"a", "0:00:00:00", 1, 2, 3⟩]).getD []) 0 SCol.az = none)) := by
  exact claim_C3_amended (fun q => q) [⟨"a", "0:00:00:00", 1, 2, 3⟩] _ _
    (option_eq_some_getD [] (by decide)) (option_eq_some_getD [] (by decide)) "a"
    SCol.ax SCol.ay SCol.az SCol.a_total rfl 0 (by decide)

end RawData
